import Mathlib

/-!
Verification of the ring-buffer core in `src/embedded/buffy.c` (girtsf/buffy).

The C code is shallowly embedded: the `struct buffy` becomes a Lean structure
whose index fields are `Nat` (the C fields are `uint32_t`; the corruption
guards in `buffy_tx` / `buffy_rx` keep every arithmetic step of those
functions inside the value range where `Nat` agrees exactly with the C
unsigned/int arithmetic).  `buffy_tx_buffer_read` has no guard, so its
`int read_len` computation is embedded with explicit uint32 wrap-around and
uint32-to-int conversion (`usub32`, `toInt32`); the places where the C code
would invoke undefined behavior (a negative `memcpy` length, an
out-of-bounds storage access) are modeled as `none`.

Byte arrays are `List Nat`; `memcpy` into storage is `listCopy` (a per-byte
`List.set` loop) and `memcpy` out of storage is `listRead`.  Loops become
well-founded recursion on the remaining requested length.  Each transmit /
receive loop additionally returns a ghost trace of the storage indices its
`memcpy` calls touch; the trace is instrumentation only and does not affect
the other components.
-/

/-- Reduction modulo 2^32, the value of a C `uint32_t` expression. -/
def wrap32 (n : Nat) : Nat := n % 2 ^ 32

/-- Conversion of a `uint32_t` value to a C `int` (two's-complement wrap,
as gcc/clang implement the out-of-range case). -/
def toInt32 (n : Nat) : Int :=
  if wrap32 n < 2 ^ 31 then (wrap32 n : Int) else (wrap32 n : Int) - 2 ^ 32

/-- Subtraction of two `uint32_t` values, as C computes it (mod 2^32). -/
def usub32 (a b : Nat) : Nat := (wrap32 a + 2 ^ 32 - wrap32 b) % 2 ^ 32

/-- C source `modpow2(value, p2) = value & ((1UL << p2) - 1)`
(src/embedded/buffy.c lines 26-28). -/
def modpow2 (value p2 : Nat) : Nat := value &&& (2 ^ p2 - 1)

/-- C source `valpow2(p2) = 1LU << p2` (src/embedded/buffy.c lines 30-32). -/
def valpow2 (p2 : Nat) : Nat := 2 ^ p2

/-- Semantics of `memcpy(dst + dstPos, src + srcPos, n)` where `dst` is the
destination byte array: a per-byte copy loop. -/
def listCopy (dst : List Nat) (dstPos : Nat) (src : List Nat) (srcPos : Nat) : Nat → List Nat
  | 0 => dst
  | n + 1 => listCopy (dst.set dstPos (src.getD srcPos 0)) (dstPos + 1) src (srcPos + 1) n

/-- Semantics of `memcpy(out, src + srcPos, n)` on the reading side: the list
of the `n` bytes of `src` starting at `srcPos`. -/
def listRead (src : List Nat) (srcPos : Nat) : Nat → List Nat
  | 0 => []
  | n + 1 => src.getD srcPos 0 :: listRead src (srcPos + 1) n

/-- The shared `struct buffy` (src/embedded/buffy.h lines 19-32), fields in
declaration order.  Index fields are `uint32_t` in C, embedded as `Nat`;
the two storage pointers become the byte lists they point to. -/
structure Buffy where
  magic : Nat
  version : Nat
  tx_len_pow2 : Nat
  rx_len_pow2 : Nat
  initialized : Nat
  tx_tail : Nat
  tx_head : Nat
  rx_tail : Nat
  rx_head : Nat
  tx_overflow_counter : Nat
  tx_buf : List Nat
  rx_buf : List Nat
deriving DecidableEq

/-- The `write_len` computation of `buffy_tx` (src/embedded/buffy.c lines
56-68), extracted as a function of capacity, tail and head. -/
def tx_write_len (cap tail head : Nat) : Nat :=
  if tail ≤ head then
    if tail = 0 then cap - head - 1
    else cap - head
  else tail - head - 1

/-- The `read_len` computation shared by `buffy_rx` (lines 180-187) and, in
spirit, `buffy_tx_buffer_read`: `head - tail` without wrap, otherwise read to
the end of the array.  In `buffy_rx` the corruption guard has already ensured
both indices are below `cap`, so plain `Nat` subtraction is exact here. -/
def rx_read_len (cap tail head : Nat) : Nat :=
  if tail < head then head - tail else cap - tail

/-- The `int read_len` computation of `buffy_tx_buffer_read` (lines 105-112).
This function has no corruption guard, so the C arithmetic is embedded
exactly: a `uint32_t` subtraction followed by conversion to `int`. -/
def br_read_len (p2 tail head : Nat) : Int :=
  if tail < head then toInt32 (usub32 head tail)
  else toInt32 (usub32 (valpow2 p2) tail)

/-- Loop body of `buffy_tx` (src/embedded/buffy.c lines 39-88).  Arguments
`len` and `pos` are the C `int len` / `int pos`; the loop only runs while
`pos < len`, and every quantity stays non-negative, so `Nat` is exact.
Returns the C return value `pos`, the final structure state, and the ghost
trace of storage indices written by `memcpy` (line 77). -/
def buffy_tx_loop (t : Buffy) (buf : List Nat) (len pos : Nat) : Nat × Buffy × List Nat :=
  if hlt : pos < len then
    if valpow2 t.tx_len_pow2 ≤ t.tx_tail ∨ valpow2 t.tx_len_pow2 ≤ t.tx_head then
      (0, { t with tx_tail := 0, tx_head := 0 }, [])
    else
      if hw : tx_write_len (valpow2 t.tx_len_pow2) t.tx_tail t.tx_head = 0 then
        (pos, { t with tx_overflow_counter := t.tx_overflow_counter + 1 }, [])
      else
        let wl := min (tx_write_len (valpow2 t.tx_len_pow2) t.tx_tail t.tx_head) (len - pos)
        let t2 : Buffy := { t with tx_buf := listCopy t.tx_buf t.tx_head buf pos wl,
                                   tx_head := modpow2 (t.tx_head + wl) t.tx_len_pow2 }
        let r := buffy_tx_loop t2 buf len (pos + wl)
        (r.1, r.2.1, (List.range wl).map (fun i => t.tx_head + i) ++ r.2.2)
  else (pos, t, [])
termination_by len - pos
decreasing_by omega

/-- C `buffy_tx` (src/embedded/buffy.c lines 34-91). -/
def buffy_tx (t : Buffy) (buf : List Nat) (len : Nat) : Nat × Buffy × List Nat :=
  buffy_tx_loop t buf len 0

/-- Loop body of `buffy_tx_buffer_read` (src/embedded/buffy.c lines 97-124).
This function has no corruption guard, so `read_len` is embedded with the
exact C `uint32_t`/`int` arithmetic (`br_read_len`).  `none` marks the two
places where the C code invokes undefined behavior: `memcpy` with a negative
length, and a `memcpy` read beyond the end of the storage array.  The third
`none` branch (a zero-length iteration that does not move `tail`) is
unreachable for any state representable in C (it needs `tail ≡ capacity`
mod 2^32 *and* `tail < capacity`), and exists only to make the recursion
well-founded.  Returns the C return value, final state, and the bytes
written to the caller's buffer. -/
def buffy_tx_buffer_read_loop (t : Buffy) (len pos : Nat) : Option (Nat × Buffy × List Nat) :=
  if hlt : pos < len then
    if heq : t.tx_head = t.tx_tail then some (pos, t, [])
    else
      if hneg : min (br_read_len t.tx_len_pow2 t.tx_tail t.tx_head) ((len : Int) - (pos : Int)) < 0 then
        none
      else
        let rl := (min (br_read_len t.tx_len_pow2 t.tx_tail t.tx_head) ((len : Int) - (pos : Int))).toNat
        if hoob : t.tx_buf.length < t.tx_tail + rl then none
        else
          if hstuck : rl = 0 ∧ modpow2 (t.tx_tail + rl) t.tx_len_pow2 = t.tx_tail then none
          else
            let t2 : Buffy := { t with tx_tail := modpow2 (t.tx_tail + rl) t.tx_len_pow2 }
            (buffy_tx_buffer_read_loop t2 len (pos + rl)).map
              (fun r => (r.1, r.2.1, listRead t.tx_buf t.tx_tail rl ++ r.2.2))
  else some (pos, t, [])
termination_by (len - pos, t.tx_tail)
decreasing_by
  rcases Nat.eq_zero_or_pos
      (min (br_read_len t.tx_len_pow2 t.tx_tail t.tx_head) ((len : Int) - (pos : Int))).toNat
    with h0 | h1
  · apply Prod.Lex.right'
    · omega
    · have hle : modpow2 (t.tx_tail + 0) t.tx_len_pow2 ≤ t.tx_tail := by
        unfold modpow2
        rw [Nat.and_pow_two_sub_one_eq_mod]
        exact Nat.le_trans (Nat.mod_le _ _) (by omega)
      have hne : ¬ modpow2 (t.tx_tail + (min (br_read_len t.tx_len_pow2 t.tx_tail t.tx_head) ((len : Int) - (pos : Int))).toNat) t.tx_len_pow2 = t.tx_tail := by
        intro hc
        exact hstuck ⟨h0, hc⟩
      rw [h0] at hne ⊢
      omega
  · apply Prod.Lex.left
    omega

/-- C `buffy_tx_buffer_read` (src/embedded/buffy.c lines 93-127). -/
def buffy_tx_buffer_read (t : Buffy) (len : Nat) : Option (Nat × Buffy × List Nat) :=
  buffy_tx_buffer_read_loop t len 0

/-- C `buffy_tx_get_buffer_size` (src/embedded/buffy.c lines 129-133). -/
def buffy_tx_get_buffer_size (t : Buffy) : Nat :=
  valpow2 t.tx_len_pow2 - 1

/-- C `buffy_tx_get_buffer_free` (src/embedded/buffy.c lines 135-153). -/
def buffy_tx_get_buffer_free (t : Buffy) : Nat :=
  if t.tx_tail ≤ t.tx_head then
    if t.tx_tail = 0 then valpow2 t.tx_len_pow2 - t.tx_head - 1
    else (valpow2 t.tx_len_pow2 - t.tx_head) + (t.tx_tail - 1)
  else t.tx_tail - t.tx_head - 1

/-- Loop body of `buffy_rx` (src/embedded/buffy.c lines 160-203).  The
corruption guard runs first in every iteration, so all subsequent arithmetic
is within range and `Nat` is exact.  Returns the C return value, the final
state, the bytes written to the caller's buffer, and the ghost trace of
storage indices read by `memcpy` (line 190). -/
def buffy_rx_loop (t : Buffy) (len pos : Nat) : Nat × Buffy × List Nat × List Nat :=
  if hlt : pos < len then
    if valpow2 t.rx_len_pow2 ≤ t.rx_tail ∨ valpow2 t.rx_len_pow2 ≤ t.rx_head then
      (0, { t with rx_tail := 0, rx_head := 0 }, [], [])
    else
      if heq : t.rx_head = t.rx_tail then (pos, t, [], [])
      else
        let rl := min (rx_read_len (valpow2 t.rx_len_pow2) t.rx_tail t.rx_head) (len - pos)
        let t2 : Buffy := { t with rx_tail := modpow2 (t.rx_tail + rl) t.rx_len_pow2 }
        let r := buffy_rx_loop t2 len (pos + rl)
        (r.1, r.2.1, listRead t.rx_buf t.rx_tail rl ++ r.2.2.1,
          (List.range rl).map (fun i => t.rx_tail + i) ++ r.2.2.2)
  else (pos, t, [], [])
termination_by len - pos
decreasing_by
  have hpos : 0 < rx_read_len (valpow2 t.rx_len_pow2) t.rx_tail t.rx_head := by
    rw [rx_read_len]
    split
    · omega
    · omega
  omega

/-- C `buffy_rx` (src/embedded/buffy.c lines 155-204). -/
def buffy_rx (t : Buffy) (len : Nat) : Nat × Buffy × List Nat × List Nat :=
  buffy_rx_loop t len 0

/-- Fuel-indexed version of `buffy_tx_loop`: runs at most `fuel` loop
iterations and returns `none` if the loop has not exited by then.  Used to
state termination of `buffy_tx` as a theorem (the loop always exits within
`len - pos + 1` iterations). -/
def buffy_tx_loop_fuel : Nat → Buffy → List Nat → Nat → Nat → Option (Nat × Buffy × List Nat)
  | 0, _, _, _, _ => none
  | fuel + 1, t, buf, len, pos =>
    if pos < len then
      if valpow2 t.tx_len_pow2 ≤ t.tx_tail ∨ valpow2 t.tx_len_pow2 ≤ t.tx_head then
        some (0, { t with tx_tail := 0, tx_head := 0 }, [])
      else
        if tx_write_len (valpow2 t.tx_len_pow2) t.tx_tail t.tx_head = 0 then
          some (pos, { t with tx_overflow_counter := t.tx_overflow_counter + 1 }, [])
        else
          (buffy_tx_loop_fuel fuel
              { t with
                tx_buf := listCopy t.tx_buf t.tx_head buf pos
                  (min (tx_write_len (valpow2 t.tx_len_pow2) t.tx_tail t.tx_head) (len - pos)),
                tx_head := modpow2
                  (t.tx_head +
                    min (tx_write_len (valpow2 t.tx_len_pow2) t.tx_tail t.tx_head) (len - pos))
                  t.tx_len_pow2 }
              buf len
              (pos + min (tx_write_len (valpow2 t.tx_len_pow2) t.tx_tail t.tx_head) (len - pos))).map
            (fun r => (r.1, r.2.1,
              (List.range
                  (min (tx_write_len (valpow2 t.tx_len_pow2) t.tx_tail t.tx_head) (len - pos))).map
                (fun i => t.tx_head + i) ++ r.2.2))
    else some (pos, t, [])

/-- Fuel-indexed version of `buffy_rx_loop`; `none` when `fuel` iterations
are exhausted without the loop exiting. -/
def buffy_rx_loop_fuel : Nat → Buffy → Nat → Nat → Option (Nat × Buffy × List Nat × List Nat)
  | 0, _, _, _ => none
  | fuel + 1, t, len, pos =>
    if pos < len then
      if valpow2 t.rx_len_pow2 ≤ t.rx_tail ∨ valpow2 t.rx_len_pow2 ≤ t.rx_head then
        some (0, { t with rx_tail := 0, rx_head := 0 }, [], [])
      else
        if t.rx_head = t.rx_tail then some (pos, t, [], [])
        else
          (buffy_rx_loop_fuel fuel
              { t with rx_tail := (modpow2
                  (t.rx_tail +
                    min (rx_read_len (valpow2 t.rx_len_pow2) t.rx_tail t.rx_head) (len - pos))
                  t.rx_len_pow2) }
              len
              (pos + min (rx_read_len (valpow2 t.rx_len_pow2) t.rx_tail t.rx_head) (len - pos))).map
            (fun r => (r.1, r.2.1,
              listRead t.rx_buf t.rx_tail
                  (min (rx_read_len (valpow2 t.rx_len_pow2) t.rx_tail t.rx_head) (len - pos)) ++
                r.2.2.1,
              (List.range
                  (min (rx_read_len (valpow2 t.rx_len_pow2) t.rx_tail t.rx_head) (len - pos))).map
                (fun i => t.rx_tail + i) ++ r.2.2.2))
    else some (pos, t, [], [])

/-- Fuel-indexed version of `buffy_tx_buffer_read_loop`.  The outer `Option`
is fuel exhaustion; the inner `Option` is the undefined-behavior marker of
the un-fueled function. -/
def buffy_tx_buffer_read_loop_fuel : Nat → Buffy → Nat → Nat → Option (Option (Nat × Buffy × List Nat))
  | 0, _, _, _ => none
  | fuel + 1, t, len, pos =>
    if pos < len then
      if t.tx_head = t.tx_tail then some (some (pos, t, []))
      else
        if min (br_read_len t.tx_len_pow2 t.tx_tail t.tx_head) ((len : Int) - (pos : Int)) < 0 then
          some none
        else
          if t.tx_buf.length < t.tx_tail +
              (min (br_read_len t.tx_len_pow2 t.tx_tail t.tx_head)
                ((len : Int) - (pos : Int))).toNat then
            some none
          else
            if (min (br_read_len t.tx_len_pow2 t.tx_tail t.tx_head)
                  ((len : Int) - (pos : Int))).toNat = 0 ∧
                modpow2
                  (t.tx_tail +
                    (min (br_read_len t.tx_len_pow2 t.tx_tail t.tx_head)
                      ((len : Int) - (pos : Int))).toNat) t.tx_len_pow2 = t.tx_tail then
              some none
            else
              (buffy_tx_buffer_read_loop_fuel fuel
                  { t with tx_tail := (modpow2
                      (t.tx_tail +
                        (min (br_read_len t.tx_len_pow2 t.tx_tail t.tx_head)
                          ((len : Int) - (pos : Int))).toNat) t.tx_len_pow2) }
                  len
                  (pos +
                    (min (br_read_len t.tx_len_pow2 t.tx_tail t.tx_head)
                      ((len : Int) - (pos : Int))).toNat)).map
                (fun o => o.map (fun r => (r.1, r.2.1,
                  listRead t.tx_buf t.tx_tail
                      (min (br_read_len t.tx_len_pow2 t.tx_tail t.tx_head)
                        ((len : Int) - (pos : Int))).toNat ++ r.2.2)))
    else some (some (pos, t, []))

/-- Writable-run length exactly as the specification states it, as a
function of capacity, head and tail (spec §4.1 step 2). -/
def spec_write_run (capacity head tail : Nat) : Nat :=
  if head ≥ tail then
    if tail = 0 then capacity - head - 1 else capacity - head
  else tail - head - 1

/-- States reachable from an initial state (`head = tail = 0` on both
channels) by any sequence of the exposed operations.  For
`buffy_tx_buffer_read` the successor exists only when the call completes
without undefined behavior. -/
inductive Reachable : Buffy → Prop where
  | init (t : Buffy) : t.tx_head = 0 → t.tx_tail = 0 → t.rx_head = 0 → t.rx_tail = 0 →
      Reachable t
  | tx (t : Buffy) (buf : List Nat) (len : Nat) : Reachable t →
      Reachable (buffy_tx t buf len).2.1
  | rx (t : Buffy) (len : Nat) : Reachable t →
      Reachable (buffy_rx t len).2.1
  | txRead (t : Buffy) (len : Nat) (r : Nat × Buffy × List Nat) : Reachable t →
      buffy_tx_buffer_read t len = some r → Reachable r.2.1

/-- Final state after a sequence of `buffy_tx` calls, each requesting the
full length of its byte list, with no interleaved read. -/
def txWriteSeq (t : Buffy) : List (List Nat) → Buffy
  | [] => t
  | w :: ws => txWriteSeq (buffy_tx t w w.length).2.1 ws

/-- Every call in the sequence returned its full requested length. -/
def txWriteSeqFull (t : Buffy) : List (List Nat) → Prop
  | [] => True
  | w :: ws => (buffy_tx t w w.length).1 = w.length ∧
      txWriteSeqFull (buffy_tx t w w.length).2.1 ws

/-- The free-space computation as a function of capacity, tail and head;
definitionally equal to `buffy_tx_get_buffer_free`. -/
def tx_free_fm (cap tail head : Nat) : Nat :=
  if tail ≤ head then
    if tail = 0 then cap - head - 1
    else (cap - head) + (tail - 1)
  else tail - head - 1

/-- The all-zero freshly-constructed channel pair with 16-byte buffers
(`tx_len_pow2 = rx_len_pow2 = 4`), as `INSTANTIATE_BUFFY` produces. -/
def zeroState : Buffy :=
  ⟨3714598466, 1, 4, 4, 1, 0, 0, 0, 0, 0, List.replicate 16 0, List.replicate 16 0⟩

/-- A state whose Tx head was clobbered out of range by an external writer. -/
def txCorruptState : Buffy :=
  ⟨3714598466, 1, 4, 4, 1, 0, 20, 0, 0, 0, List.replicate 16 5, List.replicate 16 0⟩

/-- A state whose Rx head was clobbered out of range by an external writer. -/
def rxCorruptState : Buffy :=
  ⟨3714598466, 1, 4, 4, 1, 0, 0, 3, 20, 0, List.replicate 16 0, List.replicate 16 7⟩

/-- A state part-way through the test scenario: 5 bytes written, tail still
at 0 (capacity 16). -/
def midState : Buffy :=
  ⟨3714598466, 1, 4, 4, 1, 0, 5, 0, 0, 0, List.replicate 16 0, List.replicate 16 0⟩

/-- A state with 8 bytes queued (head 8, tail 0, capacity 16): not full at
call start. -/
def overflowMidState : Buffy :=
  ⟨3714598466, 1, 4, 4, 1, 0, 8, 0, 0, 0, List.replicate 16 0, List.replicate 16 0⟩

/-- The Rx scenario of the repository's own test `test_rx`: capacity 8,
storage `'a'..'h'`, `head = 1 < tail = 2` (wrapped unread region). -/
def rxWrapState : Buffy :=
  ⟨3714598466, 1, 4, 3, 1, 0, 0, 2, 1, 0, List.replicate 16 0,
    [97, 98, 99, 100, 101, 102, 103, 104]⟩

/-- A state whose Tx half and Rx half hold the same capacity, indices and
storage, with the shared head clobbered to 16 (= capacity, out of range). -/
def mirrorCorruptState : Buffy :=
  ⟨3714598466, 1, 4, 4, 1, 0, 16, 0, 16, 0, List.replicate 16 9, List.replicate 16 9⟩

/-- A state whose Tx half and Rx half hold the same capacity, in-range
indices and storage. -/
def mirrorState : Buffy :=
  ⟨3714598466, 1, 4, 4, 1, 1, 3, 1, 3, 0, List.replicate 16 2, List.replicate 16 2⟩

/-- A state whose Tx tail was clobbered to 20 (beyond capacity 16) while
head is 0: `buffy_tx_buffer_read` computes `read_len = 16 - 20 = -4`. -/
def brCorruptState : Buffy :=
  ⟨3714598466, 1, 4, 4, 1, 20, 0, 0, 0, 0, List.replicate 16 3, List.replicate 16 0⟩

theorem modpow2_eq_mod (v p2 : Nat) : modpow2 v p2 = v % 2 ^ p2 :=
  Nat.and_pow_two_sub_one_eq_mod v p2

theorem modpow2_lt (v p2 : Nat) : modpow2 v p2 < valpow2 p2 := by
  rw [modpow2_eq_mod, valpow2]
  exact Nat.mod_lt _ (Nat.pos_pow_of_pos _ (by omega))

theorem modpow2_eq_self {v p2 : Nat} (h : v < 2 ^ p2) : modpow2 v p2 = v := by
  rw [modpow2_eq_mod]
  exact Nat.mod_eq_of_lt h

theorem valpow2_pos (p2 : Nat) : 0 < valpow2 p2 := Nat.pos_pow_of_pos _ (by omega)

theorem listCopy_length (src : List Nat) :
    ∀ (n : Nat) (dst : List Nat) (d s : Nat), (listCopy dst d src s n).length = dst.length
  | 0, _, _, _ => rfl
  | n + 1, dst, d, s => by
    rw [listCopy, listCopy_length src n]
    simp

theorem listRead_length (src : List Nat) : ∀ (n s : Nat), (listRead src s n).length = n
  | 0, _ => rfl
  | n + 1, s => by rw [listRead, List.length_cons, listRead_length src n]

theorem listRead_eq_drop_take (src : List Nat) :
    ∀ (n s : Nat), s + n ≤ src.length → listRead src s n = (src.drop s).take n
  | 0, s, _ => by simp [listRead]
  | n + 1, s, h => by
    have hs : s < src.length := by omega
    rw [listRead, listRead_eq_drop_take src n (s + 1) (by omega),
      List.drop_eq_getElem_cons hs, List.take_succ_cons, List.getD_eq_getElem?_getD,
      List.getElem?_eq_getElem hs]
    rfl

theorem listCopy_splice (src : List Nat) :
    ∀ (n : Nat) (dst : List Nat) (d s : Nat), d + n ≤ dst.length →
      listCopy dst d src s n = dst.take d ++ listRead src s n ++ dst.drop (d + n)
  | 0, dst, d, s, _ => by simp [listCopy, listRead]
  | n + 1, dst, d, s, h => by
    have hd : d < dst.length := by omega
    rw [listCopy, listCopy_splice src n _ (d + 1) (s + 1) (by simp only [List.length_set]; omega)]
    rw [List.drop_set_of_lt _ _ (by omega)]
    have hset : dst.set d (src.getD s 0) = dst.take d ++ src.getD s 0 :: dst.drop (d + 1) :=
      List.set_eq_take_append_cons_drop.trans (by rw [if_pos hd])
    rw [hset, List.take_append_eq_append_take,
      List.take_of_length_le (by simp only [List.length_take]; omega),
      List.length_take, listRead]
    have : min d dst.length = d := by omega
    rw [this, show d + 1 - d = 1 from by omega, List.take_succ_cons, List.take_zero]
    simp only [List.append_assoc, List.cons_append, List.nil_append]
    have : d + 1 + n = d + (n + 1) := by omega
    rw [this]

theorem listCopy_take (src : List Nat) (n : Nat) (dst : List Nat) (d s : Nat)
    (h : d + n ≤ dst.length) :
    (listCopy dst d src s n).take (d + n) = dst.take d ++ listRead src s n := by
  rw [listCopy_splice src n dst d s h]
  exact List.take_left' (by simp only [List.length_append, List.length_take, listRead_length]; omega)

theorem usub32_eq_sub {a b : Nat} (hba : b ≤ a) (ha : a < 2 ^ 32) :
    usub32 a b = a - b := by
  unfold usub32 wrap32
  omega

theorem toInt32_eq_ofNat {n : Nat} (h : n < 2 ^ 31) : toInt32 n = (n : Int) := by
  unfold toInt32 wrap32
  rw [Nat.mod_eq_of_lt (by omega)]
  rw [if_pos h]

/-- Under the in-range conditions that `buffy_rx`'s guard establishes (and
that `buffy_tx_buffer_read` does *not* establish), the exact C `int`
computation `br_read_len` agrees with the plain `Nat` computation
`rx_read_len`, and the run is positive. -/
theorem br_read_len_eq_rx {p2 tail head : Nat} (hp : p2 ≤ 31)
    (ht : tail < valpow2 p2) (hh : head < valpow2 p2) (hne : head ≠ tail) :
    br_read_len p2 tail head = (rx_read_len (valpow2 p2) tail head : Int) ∧
      0 < rx_read_len (valpow2 p2) tail head := by
  have hcap : valpow2 p2 ≤ 2 ^ 31 := Nat.pow_le_pow_right (by omega) hp
  unfold br_read_len rx_read_len
  by_cases hlt : tail < head
  · rw [if_pos hlt, if_pos hlt, usub32_eq_sub (by omega) (by omega),
      toInt32_eq_ofNat (by omega)]
    exact ⟨rfl, by omega⟩
  · have htail : 1 ≤ tail := by omega
    rw [if_neg hlt, if_neg hlt, usub32_eq_sub (by omega) (by omega),
      toInt32_eq_ofNat (by omega)]
    exact ⟨rfl, by omega⟩

/-- State-shape facts about `buffy_tx_loop`: the identity fields, the Rx
half and `tx_len_pow2` are never written; the storage length is preserved;
the final `tx_head` is the initial one or in range; the final `tx_tail` is
the initial one or `0` (guard reset). -/
theorem buffy_tx_loop_state (t : Buffy) (buf : List Nat) (len pos : Nat) :
    (buffy_tx_loop t buf len pos).2.1.magic = t.magic ∧
    (buffy_tx_loop t buf len pos).2.1.version = t.version ∧
    (buffy_tx_loop t buf len pos).2.1.tx_len_pow2 = t.tx_len_pow2 ∧
    (buffy_tx_loop t buf len pos).2.1.rx_len_pow2 = t.rx_len_pow2 ∧
    (buffy_tx_loop t buf len pos).2.1.initialized = t.initialized ∧
    (buffy_tx_loop t buf len pos).2.1.rx_tail = t.rx_tail ∧
    (buffy_tx_loop t buf len pos).2.1.rx_head = t.rx_head ∧
    (buffy_tx_loop t buf len pos).2.1.rx_buf = t.rx_buf ∧
    (buffy_tx_loop t buf len pos).2.1.tx_buf.length = t.tx_buf.length ∧
    ((buffy_tx_loop t buf len pos).2.1.tx_head = t.tx_head ∨
      (buffy_tx_loop t buf len pos).2.1.tx_head < valpow2 t.tx_len_pow2) ∧
    ((buffy_tx_loop t buf len pos).2.1.tx_tail = t.tx_tail ∨
      (buffy_tx_loop t buf len pos).2.1.tx_tail = 0) := by
  induction t, buf, len, pos using buffy_tx_loop.induct with
  | case1 t buf len pos hlt hguard =>
    unfold buffy_tx_loop
    rw [dif_pos hlt, if_pos hguard]
    exact ⟨rfl, rfl, rfl, rfl, rfl, rfl, rfl, rfl, rfl,
      Or.inr (valpow2_pos _), Or.inr rfl⟩
  | case2 t buf len pos hlt hguard hw =>
    unfold buffy_tx_loop
    rw [dif_pos hlt, if_neg hguard, dif_pos hw]
    exact ⟨rfl, rfl, rfl, rfl, rfl, rfl, rfl, rfl, rfl, Or.inl rfl, Or.inl rfl⟩
  | case3 t buf len pos hlt hguard hw wl t2 ih =>
    unfold buffy_tx_loop
    rw [dif_pos hlt, if_neg hguard, dif_neg hw]
    obtain ⟨h1, h2, h3, h4, h5, h6, h7, h8, h9, h10, h11⟩ := ih
    refine ⟨h1, h2, h3, h4, h5, h6, h7, h8,
      h9.trans (listCopy_length buf wl t.tx_buf t.tx_head pos), ?_, h11⟩
    rcases h10 with h | h
    · exact Or.inr (by rw [h]; exact modpow2_lt _ _)
    · exact Or.inr h
  | case4 t buf len pos hlt =>
    unfold buffy_tx_loop
    rw [dif_neg hlt]
    exact ⟨rfl, rfl, rfl, rfl, rfl, rfl, rfl, rfl, rfl, Or.inl rfl, Or.inl rfl⟩

/-- `buffy_rx_loop` never writes any field of the Tx half. -/
theorem buffy_rx_loop_state (t : Buffy) (len pos : Nat) :
    (buffy_rx_loop t len pos).2.1.tx_len_pow2 = t.tx_len_pow2 ∧
    (buffy_rx_loop t len pos).2.1.tx_tail = t.tx_tail ∧
    (buffy_rx_loop t len pos).2.1.tx_head = t.tx_head ∧
    (buffy_rx_loop t len pos).2.1.tx_buf = t.tx_buf := by
  induction t, len, pos using buffy_rx_loop.induct with
  | case1 t len pos hlt hguard =>
    unfold buffy_rx_loop
    rw [dif_pos hlt, if_pos hguard]
    exact ⟨rfl, rfl, rfl, rfl⟩
  | case2 t len pos hlt hguard heq =>
    unfold buffy_rx_loop
    rw [dif_pos hlt, if_neg hguard, dif_pos heq]
    exact ⟨rfl, rfl, rfl, rfl⟩
  | case3 t len pos hlt hguard heq rl t2 ih =>
    unfold buffy_rx_loop
    rw [dif_pos hlt, if_neg hguard, dif_neg heq]
    exact ih
  | case4 t len pos hlt =>
    unfold buffy_rx_loop
    rw [dif_neg hlt]
    exact ⟨rfl, rfl, rfl, rfl⟩

/-- When `buffy_tx_buffer_read_loop` completes without hitting undefined
behavior, the only field it has written is `tx_tail`, and a written
`tx_tail` is in range. -/
theorem buffy_tx_buffer_read_loop_state (t : Buffy) (len pos : Nat) :
    ∀ r : Nat × Buffy × List Nat, buffy_tx_buffer_read_loop t len pos = some r →
    r.2.1.tx_len_pow2 = t.tx_len_pow2 ∧
    r.2.1.tx_head = t.tx_head ∧
    r.2.1.tx_buf = t.tx_buf ∧
    (r.2.1.tx_tail = t.tx_tail ∨ r.2.1.tx_tail < valpow2 t.tx_len_pow2) := by
  induction t, len, pos using buffy_tx_buffer_read_loop.induct with
  | case1 t len pos hlt heq =>
    intro r h
    rw [buffy_tx_buffer_read_loop] at h
    rw [dif_pos hlt, dif_pos heq] at h
    obtain rfl : (pos, t, ([] : List Nat)) = r := Option.some.inj h
    exact ⟨rfl, rfl, rfl, Or.inl rfl⟩
  | case2 t len pos hlt heq hneg =>
    intro r h
    rw [buffy_tx_buffer_read_loop] at h
    rw [dif_pos hlt, dif_neg heq, dif_pos hneg] at h
    exact absurd h (by simp)
  | case3 t len pos hlt heq hneg rl hoob =>
    intro r h
    rw [buffy_tx_buffer_read_loop] at h
    rw [dif_pos hlt, dif_neg heq, dif_neg hneg, dif_pos hoob] at h
    exact absurd h (by simp)
  | case4 t len pos hlt heq hneg rl hoob hstuck =>
    intro r h
    rw [buffy_tx_buffer_read_loop] at h
    rw [dif_pos hlt, dif_neg heq, dif_neg hneg, dif_neg hoob, dif_pos hstuck] at h
    exact absurd h (by simp)
  | case5 t len pos hlt heq hneg rl hoob hstuck t2 ih =>
    intro r h
    rw [buffy_tx_buffer_read_loop] at h
    rw [dif_pos hlt, dif_neg heq, dif_neg hneg, dif_neg hoob, dif_neg hstuck] at h
    rw [Option.map_eq_some'] at h
    obtain ⟨r', hr', hmap⟩ := h
    obtain ⟨g1, g2, g3, g4⟩ := ih r' hr'
    subst hmap
    refine ⟨g1, g2, g3, ?_⟩
    rcases g4 with g | g
    · exact Or.inr (by rw [g]; exact modpow2_lt _ _)
    · exact Or.inr g
  | case6 t len pos hlt =>
    intro r h
    rw [buffy_tx_buffer_read_loop] at h
    rw [dif_neg hlt] at h
    obtain rfl : (pos, t, ([] : List Nat)) = r := Option.some.inj h
    exact ⟨rfl, rfl, rfl, Or.inl rfl⟩

theorem int_sub_emod {h tl c : Int} (hh : 0 ≤ h) (hhc : h < c) (htl : 0 ≤ tl)
    (htlc : tl < c) :
    (h - tl) % c = if tl ≤ h then h - tl else h - tl + c := by
  split
  · exact Int.emod_eq_of_lt (by omega) (by omega)
  · have h1 : h - tl + c * 1 = h - tl + c := by ring
    have h2 : (h - tl + c * 1) % c = (h - tl) % c := Int.add_mul_emod_self_left (h - tl) c 1
    rw [← h2, h1]
    exact Int.emod_eq_of_lt (by omega) (by omega)

/-- On every in-range state, `buffy_tx_get_buffer_free` plus the
specification's `used = (head - tail) mod capacity` equals `capacity - 1`. -/
theorem free_add_used (t : Buffy) (hh : t.tx_head < valpow2 t.tx_len_pow2)
    (ht : t.tx_tail < valpow2 t.tx_len_pow2) :
    (buffy_tx_get_buffer_free t : Int) +
      ((t.tx_head : Int) - (t.tx_tail : Int)) % (valpow2 t.tx_len_pow2 : Int) =
      (valpow2 t.tx_len_pow2 : Int) - 1 := by
  have hc : 0 < valpow2 t.tx_len_pow2 := valpow2_pos _
  rw [int_sub_emod (by omega) (by exact_mod_cast hh) (by omega) (by exact_mod_cast ht)]
  unfold buffy_tx_get_buffer_free
  split_ifs <;> omega

theorem tx_write_len_le_fm (cap tail head : Nat) (ht : tail < cap) (hh : head < cap) :
    tx_write_len cap tail head ≤ tx_free_fm cap tail head ∧
    (tx_write_len cap tail head = 0 → tx_free_fm cap tail head = 0) ∧
    head + tx_write_len cap tail head ≤ cap := by
  unfold tx_write_len tx_free_fm
  split_ifs <;> omega

theorem tx_free_fm_step (cap tail head wl m : Nat) (ht : tail < cap) (hh : head < cap)
    (h1 : 1 ≤ wl) (hle : wl ≤ tx_write_len cap tail head)
    (hm : (head + wl < cap ∧ m = head + wl) ∨ (head + wl = cap ∧ m = 0)) :
    tx_free_fm cap tail m = tx_free_fm cap tail head - wl := by
  unfold tx_write_len at hle
  unfold tx_free_fm
  rcases hm with ⟨hlt, rfl⟩ | ⟨heq, rfl⟩ <;> split_ifs at hle ⊢ <;> omega

/-- Master characterization of the `buffy_tx` loop on in-range states: the
loop transfers exactly `min (len - pos) free` further bytes, and bumps the
overflow counter exactly when it cannot satisfy the remaining request. -/
theorem buffy_tx_loop_master (t : Buffy) (buf : List Nat) (len pos : Nat) :
    t.tx_tail < valpow2 t.tx_len_pow2 → t.tx_head < valpow2 t.tx_len_pow2 →
    (buffy_tx_loop t buf len pos).1 = pos + min (len - pos) (buffy_tx_get_buffer_free t) ∧
    (buffy_tx_loop t buf len pos).2.1.tx_overflow_counter =
      t.tx_overflow_counter +
        (if len - pos ≤ buffy_tx_get_buffer_free t then 0 else 1) := by
  induction t, buf, len, pos using buffy_tx_loop.induct with
  | case1 t buf len pos hlt hguard =>
    intro ht hh
    exact absurd hguard (by omega)
  | case2 t buf len pos hlt hguard hw =>
    intro ht hh
    have hfm : buffy_tx_get_buffer_free t =
        tx_free_fm (valpow2 t.tx_len_pow2) t.tx_tail t.tx_head := rfl
    have h0 : buffy_tx_get_buffer_free t = 0 := by
      rw [hfm]
      exact (tx_write_len_le_fm _ _ _ ht hh).2.1 hw
    unfold buffy_tx_loop
    rw [dif_pos hlt, if_neg hguard, dif_pos hw]
    constructor
    · rw [h0]
      simp
    · rw [h0, if_neg (by omega)]
  | case3 t buf len pos hlt hguard hw wl t2 ih =>
    intro ht hh
    have hwl : wl = min (tx_write_len (valpow2 t.tx_len_pow2) t.tx_tail t.tx_head)
        (len - pos) := rfl
    have hlefm := tx_write_len_le_fm (valpow2 t.tx_len_pow2) t.tx_tail t.tx_head ht hh
    have hwl1 : 1 ≤ wl := by omega
    have hwlle : wl ≤ tx_write_len (valpow2 t.tx_len_pow2) t.tx_tail t.tx_head := by omega
    have hm : (t.tx_head + wl < valpow2 t.tx_len_pow2 ∧
        modpow2 (t.tx_head + wl) t.tx_len_pow2 = t.tx_head + wl) ∨
        (t.tx_head + wl = valpow2 t.tx_len_pow2 ∧
        modpow2 (t.tx_head + wl) t.tx_len_pow2 = 0) := by
      rcases Nat.lt_or_ge (t.tx_head + wl) (valpow2 t.tx_len_pow2) with h | h
      · exact Or.inl ⟨h, modpow2_eq_self h⟩
      · have he : t.tx_head + wl = valpow2 t.tx_len_pow2 := by omega
        refine Or.inr ⟨he, ?_⟩
        rw [he, valpow2, modpow2_eq_mod, Nat.mod_self]
    have hfmt : buffy_tx_get_buffer_free t =
        tx_free_fm (valpow2 t.tx_len_pow2) t.tx_tail t.tx_head := rfl
    have hfmt2 : buffy_tx_get_buffer_free t2 =
        tx_free_fm (valpow2 t.tx_len_pow2) t.tx_tail
          (modpow2 (t.tx_head + wl) t.tx_len_pow2) := rfl
    have hstep : buffy_tx_get_buffer_free t2 = buffy_tx_get_buffer_free t - wl := by
      rw [hfmt, hfmt2]
      exact tx_free_fm_step _ _ _ _ _ ht hh hwl1 hwlle hm
    obtain ⟨ih1, ih2⟩ := ih ht (modpow2_lt _ _)
    unfold buffy_tx_loop
    rw [dif_pos hlt, if_neg hguard, dif_neg hw]
    constructor
    · show (buffy_tx_loop t2 buf len (pos + wl)).1 = _
      rw [ih1, hstep]
      omega
    · show (buffy_tx_loop t2 buf len (pos + wl)).2.1.tx_overflow_counter = _
      rw [ih2, hstep]
      show t.tx_overflow_counter + _ = t.tx_overflow_counter + _
      by_cases hc : len - pos ≤ buffy_tx_get_buffer_free t
      · rw [if_pos hc, if_pos (by omega)]
      · rw [if_neg hc, if_neg (by omega)]
  | case4 t buf len pos hlt =>
    intro ht hh
    unfold buffy_tx_loop
    rw [dif_neg hlt]
    have h0 : len - pos = 0 := by omega
    rw [h0]
    constructor
    · simp
    · rw [if_pos (by omega)]
      rfl

theorem buffy_tx_loop_exit (t : Buffy) (buf : List Nat) (len pos : Nat)
    (hlt : ¬ pos < len) : buffy_tx_loop t buf len pos = (pos, t, []) := by
  unfold buffy_tx_loop
  rw [dif_neg hlt]

theorem buffy_tx_loop_guard (t : Buffy) (buf : List Nat) (len pos : Nat)
    (hlt : pos < len)
    (hguard : valpow2 t.tx_len_pow2 ≤ t.tx_tail ∨ valpow2 t.tx_len_pow2 ≤ t.tx_head) :
    buffy_tx_loop t buf len pos = (0, { t with tx_tail := 0, tx_head := 0 }, []) := by
  unfold buffy_tx_loop
  rw [dif_pos hlt, if_pos hguard]

theorem buffy_tx_loop_full (t : Buffy) (buf : List Nat) (len pos : Nat)
    (hlt : pos < len)
    (hguard : ¬ (valpow2 t.tx_len_pow2 ≤ t.tx_tail ∨ valpow2 t.tx_len_pow2 ≤ t.tx_head))
    (hw : tx_write_len (valpow2 t.tx_len_pow2) t.tx_tail t.tx_head = 0) :
    buffy_tx_loop t buf len pos =
      (pos, { t with tx_overflow_counter := t.tx_overflow_counter + 1 }, []) := by
  unfold buffy_tx_loop
  rw [dif_pos hlt, if_neg hguard, dif_pos hw]

theorem buffy_tx_loop_step (t : Buffy) (buf : List Nat) (len pos wl : Nat)
    (hlt : pos < len)
    (hguard : ¬ (valpow2 t.tx_len_pow2 ≤ t.tx_tail ∨ valpow2 t.tx_len_pow2 ≤ t.tx_head))
    (hw : ¬ tx_write_len (valpow2 t.tx_len_pow2) t.tx_tail t.tx_head = 0)
    (hwl : min (tx_write_len (valpow2 t.tx_len_pow2) t.tx_tail t.tx_head) (len - pos) = wl) :
    buffy_tx_loop t buf len pos =
      ((buffy_tx_loop { t with
            tx_buf := listCopy t.tx_buf t.tx_head buf pos wl,
            tx_head := modpow2 (t.tx_head + wl) t.tx_len_pow2 } buf len (pos + wl)).1,
        (buffy_tx_loop { t with
            tx_buf := listCopy t.tx_buf t.tx_head buf pos wl,
            tx_head := modpow2 (t.tx_head + wl) t.tx_len_pow2 } buf len (pos + wl)).2.1,
        (List.range wl).map (fun i => t.tx_head + i) ++
          (buffy_tx_loop { t with
            tx_buf := listCopy t.tx_buf t.tx_head buf pos wl,
            tx_head := modpow2 (t.tx_head + wl) t.tx_len_pow2 } buf len (pos + wl)).2.2) := by
  subst hwl
  conv_lhs => rw [buffy_tx_loop]
  rw [dif_pos hlt, if_neg hguard, dif_neg hw]

theorem buffy_rx_loop_exit (t : Buffy) (len pos : Nat) (hlt : ¬ pos < len) :
    buffy_rx_loop t len pos = (pos, t, [], []) := by
  unfold buffy_rx_loop
  rw [dif_neg hlt]

theorem buffy_rx_loop_guard (t : Buffy) (len pos : Nat) (hlt : pos < len)
    (hguard : valpow2 t.rx_len_pow2 ≤ t.rx_tail ∨ valpow2 t.rx_len_pow2 ≤ t.rx_head) :
    buffy_rx_loop t len pos = (0, { t with rx_tail := 0, rx_head := 0 }, [], []) := by
  unfold buffy_rx_loop
  rw [dif_pos hlt, if_pos hguard]

theorem buffy_rx_loop_empty (t : Buffy) (len pos : Nat) (hlt : pos < len)
    (hguard : ¬ (valpow2 t.rx_len_pow2 ≤ t.rx_tail ∨ valpow2 t.rx_len_pow2 ≤ t.rx_head))
    (heq : t.rx_head = t.rx_tail) :
    buffy_rx_loop t len pos = (pos, t, [], []) := by
  unfold buffy_rx_loop
  rw [dif_pos hlt, if_neg hguard, dif_pos heq]

theorem buffy_rx_loop_step (t : Buffy) (len pos rl : Nat)
    (hlt : pos < len)
    (hguard : ¬ (valpow2 t.rx_len_pow2 ≤ t.rx_tail ∨ valpow2 t.rx_len_pow2 ≤ t.rx_head))
    (heq : ¬ t.rx_head = t.rx_tail)
    (hrl : min (rx_read_len (valpow2 t.rx_len_pow2) t.rx_tail t.rx_head) (len - pos) = rl) :
    buffy_rx_loop t len pos =
      ((buffy_rx_loop { t with rx_tail := modpow2 (t.rx_tail + rl) t.rx_len_pow2 } len (pos + rl)).1,
        (buffy_rx_loop { t with rx_tail := modpow2 (t.rx_tail + rl) t.rx_len_pow2 } len (pos + rl)).2.1,
        listRead t.rx_buf t.rx_tail rl ++
          (buffy_rx_loop { t with rx_tail := modpow2 (t.rx_tail + rl) t.rx_len_pow2 } len (pos + rl)).2.2.1,
        (List.range rl).map (fun i => t.rx_tail + i) ++
          (buffy_rx_loop { t with rx_tail := modpow2 (t.rx_tail + rl) t.rx_len_pow2 } len (pos + rl)).2.2.2) := by
  subst hrl
  conv_lhs => rw [buffy_rx_loop]
  rw [dif_pos hlt, if_neg hguard, dif_neg heq]

theorem buffy_tx_buffer_read_loop_exit (t : Buffy) (len pos : Nat) (hlt : ¬ pos < len) :
    buffy_tx_buffer_read_loop t len pos = some (pos, t, []) := by
  unfold buffy_tx_buffer_read_loop
  rw [dif_neg hlt]

theorem buffy_tx_buffer_read_loop_empty (t : Buffy) (len pos : Nat) (hlt : pos < len)
    (heq : t.tx_head = t.tx_tail) :
    buffy_tx_buffer_read_loop t len pos = some (pos, t, []) := by
  unfold buffy_tx_buffer_read_loop
  rw [dif_pos hlt, dif_pos heq]

theorem buffy_tx_buffer_read_loop_step (t : Buffy) (len pos rl : Nat)
    (hlt : pos < len)
    (heq : ¬ t.tx_head = t.tx_tail)
    (hneg : ¬ min (br_read_len t.tx_len_pow2 t.tx_tail t.tx_head) ((len : Int) - (pos : Int)) < 0)
    (hrl : (min (br_read_len t.tx_len_pow2 t.tx_tail t.tx_head) ((len : Int) - (pos : Int))).toNat = rl)
    (hoob : ¬ t.tx_buf.length < t.tx_tail + rl)
    (hstuck : ¬ (rl = 0 ∧ modpow2 (t.tx_tail + rl) t.tx_len_pow2 = t.tx_tail)) :
    buffy_tx_buffer_read_loop t len pos =
      (buffy_tx_buffer_read_loop { t with tx_tail := modpow2 (t.tx_tail + rl) t.tx_len_pow2 }
          len (pos + rl)).map
        (fun r => (r.1, r.2.1, listRead t.tx_buf t.tx_tail rl ++ r.2.2)) := by
  subst hrl
  conv_lhs => rw [buffy_tx_buffer_read_loop]
  rw [dif_pos hlt, dif_neg heq, dif_neg hneg, dif_neg hoob, dif_neg hstuck]

theorem listRead_self (w : List Nat) : listRead w 0 w.length = w := by
  rw [listRead_eq_drop_take w w.length 0 (by omega), List.drop_zero, List.take_length]

/-- A single `buffy_tx` call from a state with `tail = 0` and room for the
whole request writes it in one contiguous segment at `head` and returns the
full requested length. -/
theorem buffy_tx_single (t : Buffy) (w : List Nat)
    (htail : t.tx_tail = 0)
    (hroom : t.tx_head + w.length ≤ valpow2 t.tx_len_pow2 - 1) :
    buffy_tx t w w.length =
      (w.length,
        { t with tx_head := t.tx_head + w.length,
                 tx_buf := listCopy t.tx_buf t.tx_head w 0 w.length },
        (List.range w.length).map (fun i => t.tx_head + i)) := by
  have hcap : 0 < valpow2 t.tx_len_pow2 := valpow2_pos _
  have hv : valpow2 t.tx_len_pow2 = 2 ^ t.tx_len_pow2 := rfl
  rcases Nat.eq_zero_or_pos w.length with h0 | h1
  · rw [buffy_tx, h0, buffy_tx_loop_exit t w 0 0 (by omega)]
    rw [List.range_zero, List.map_nil, listCopy]
    rfl
  · have hh : t.tx_head < valpow2 t.tx_len_pow2 := by omega
    have hrun : tx_write_len (valpow2 t.tx_len_pow2) t.tx_tail t.tx_head
        = valpow2 t.tx_len_pow2 - t.tx_head - 1 := by
      unfold tx_write_len
      rw [htail, if_pos (Nat.zero_le _), if_pos rfl]
    rw [buffy_tx, buffy_tx_loop_step t w w.length 0 w.length (by omega) (by omega)
      (by rw [hrun]; omega) (by rw [hrun]; omega)]
    rw [modpow2_eq_self (by omega), Nat.zero_add,
      buffy_tx_loop_exit _ _ _ _ (by omega : ¬ w.length < w.length)]
    simp

/-- Invariant of a write-only call sequence starting from `tail = 0`: all
calls return in full, `head` advances by the total length, and the storage
prefix accumulates the concatenated bytes. -/
theorem txWriteSeq_inv (ws : List (List Nat)) :
    ∀ t : Buffy, t.tx_tail = 0 →
    t.tx_buf.length = valpow2 t.tx_len_pow2 →
    t.tx_head + (ws.map List.length).sum ≤ valpow2 t.tx_len_pow2 - 1 →
    txWriteSeqFull t ws ∧
    (txWriteSeq t ws).tx_tail = 0 ∧
    (txWriteSeq t ws).tx_head = t.tx_head + (ws.map List.length).sum ∧
    (txWriteSeq t ws).tx_len_pow2 = t.tx_len_pow2 ∧
    (txWriteSeq t ws).tx_buf.length = t.tx_buf.length ∧
    (txWriteSeq t ws).tx_buf.take (t.tx_head + (ws.map List.length).sum) =
      t.tx_buf.take t.tx_head ++ ws.join := by
  induction ws with
  | nil =>
    intro t htail hlen hroom
    refine ⟨trivial, htail, by simp [txWriteSeq], rfl, rfl, by simp [txWriteSeq]⟩
  | cons w ws ih =>
    intro t htail hlen hroom
    rw [List.map_cons, List.sum_cons] at hroom
    have hroom1 : t.tx_head + w.length ≤ valpow2 t.tx_len_pow2 - 1 := by omega
    have hsingle := buffy_tx_single t w htail hroom1
    have hstate : (buffy_tx t w w.length).2.1 =
        { t with tx_head := t.tx_head + w.length,
                 tx_buf := listCopy t.tx_buf t.tx_head w 0 w.length } := by
      rw [hsingle]
    have hret : (buffy_tx t w w.length).1 = w.length := by rw [hsingle]
    have hlen2 : (listCopy t.tx_buf t.tx_head w 0 w.length).length = t.tx_buf.length :=
      listCopy_length w w.length t.tx_buf t.tx_head 0
    obtain ⟨f1, f2, f3, f4, f5, f6⟩ := ih (buffy_tx t w w.length).2.1
      (by rw [hstate]; exact htail)
      (by rw [hstate]; show (listCopy _ _ _ _ _).length = _; rw [hlen2, hlen])
      (by rw [hstate]
          show t.tx_head + w.length + (ws.map List.length).sum ≤ valpow2 t.tx_len_pow2 - 1
          omega)
    rw [hstate] at f2 f3 f4 f5 f6
    refine ⟨⟨hret, f1⟩, ?_, ?_, ?_, ?_, ?_⟩
    · show (txWriteSeq (buffy_tx t w w.length).2.1 ws).tx_tail = 0
      rw [hstate]
      exact f2
    · show (txWriteSeq (buffy_tx t w w.length).2.1 ws).tx_head = _
      rw [hstate, f3]
      show t.tx_head + w.length + _ = _
      rw [List.map_cons, List.sum_cons]
      omega
    · show (txWriteSeq (buffy_tx t w w.length).2.1 ws).tx_len_pow2 = _
      rw [hstate, f4]
    · show (txWriteSeq (buffy_tx t w w.length).2.1 ws).tx_buf.length = _
      rw [hstate, f5]
      show (listCopy _ _ _ _ _).length = _
      rw [hlen2]
    · show (txWriteSeq (buffy_tx t w w.length).2.1 ws).tx_buf.take _ = _
      rw [hstate, List.map_cons, List.sum_cons]
      have harr : t.tx_head + (w.length + (ws.map List.length).sum) =
          (t.tx_head + w.length) + (ws.map List.length).sum := by omega
      rw [harr, f6]
      show (listCopy t.tx_buf t.tx_head w 0 w.length).take (t.tx_head + w.length) ++ _ = _
      rw [listCopy_take w w.length t.tx_buf t.tx_head 0 (by omega), listRead_self,
        List.append_assoc]
      simp

/-- A `buffy_tx_buffer_read` of at least `head` bytes from a state with
`tail = 0` completes without undefined behavior and drains exactly the
pending bytes `storage[0 .. head)`. -/
theorem buffy_tx_buffer_read_front (t : Buffy) (len : Nat)
    (htail : t.tx_tail = 0) (hp : t.tx_len_pow2 ≤ 31)
    (hS : t.tx_head ≤ valpow2 t.tx_len_pow2 - 1)
    (hlen : t.tx_buf.length = valpow2 t.tx_len_pow2)
    (hrange : t.tx_head ≤ len) :
    buffy_tx_buffer_read t len =
      some (t.tx_head, { t with tx_tail := t.tx_head }, t.tx_buf.take t.tx_head) := by
  have hcap : 0 < valpow2 t.tx_len_pow2 := valpow2_pos _
  have hv : valpow2 t.tx_len_pow2 = 2 ^ t.tx_len_pow2 := rfl
  rcases Nat.eq_zero_or_pos t.tx_head with h0 | h1
  · have htt : { t with tx_tail := t.tx_head } = t :=
      (congrArg (fun x => { t with tx_tail := x }) (show t.tx_head = t.tx_tail by omega)).trans
        rfl
    rw [buffy_tx_buffer_read, htt, h0, List.take_zero]
    rcases Nat.eq_zero_or_pos len with hl0 | hl1
    · rw [hl0, buffy_tx_buffer_read_loop_exit _ _ _ (by omega)]
    · rw [buffy_tx_buffer_read_loop_empty _ _ _ (by omega) (by omega)]
  · have hhead : t.tx_head < valpow2 t.tx_len_pow2 := by omega
    have htlt : t.tx_tail < valpow2 t.tx_len_pow2 := by omega
    obtain ⟨hbr, hpos⟩ := br_read_len_eq_rx hp htlt hhead (by omega)
    have hrx : rx_read_len (valpow2 t.tx_len_pow2) t.tx_tail t.tx_head = t.tx_head := by
      unfold rx_read_len
      rw [if_pos (by omega)]
      omega
    have hrl : (min (br_read_len t.tx_len_pow2 t.tx_tail t.tx_head)
        ((len : Int) - ((0 : Nat) : Int))).toNat = t.tx_head := by
      rw [hbr, hrx]
      omega
    rw [buffy_tx_buffer_read, buffy_tx_buffer_read_loop_step t len 0 t.tx_head (by omega)
      (by omega)
      (by rw [hbr, hrx]; omega)
      hrl
      (by omega)
      (by rintro ⟨hc, _⟩; omega)]
    have ht2 : { t with tx_tail := modpow2 (t.tx_tail + t.tx_head) t.tx_len_pow2 } =
        { t with tx_tail := t.tx_head } := by
      rw [htail, Nat.zero_add, modpow2_eq_self (by omega)]
    rw [ht2, Nat.zero_add]
    have hinner : buffy_tx_buffer_read_loop { t with tx_tail := t.tx_head } len t.tx_head =
        some (t.tx_head, { t with tx_tail := t.tx_head }, []) := by
      rcases Nat.lt_or_ge t.tx_head len with h | h
      · exact buffy_tx_buffer_read_loop_empty _ _ _ h rfl
      · exact buffy_tx_buffer_read_loop_exit _ _ _ (by omega)
    rw [hinner, htail]
    rw [listRead_eq_drop_take t.tx_buf t.tx_head 0 (by omega), List.drop_zero]
    simp

theorem rx_read_len_le (cap tail head : Nat) (ht : tail < cap) (hh : head < cap) :
    rx_read_len cap tail head ≤ cap - tail := by
  unfold rx_read_len
  split_ifs <;> omega

/-- On a Tx half whose indices are in range (the situation `buffy_rx`'s
guard itself establishes for the Rx half), `buffy_tx_buffer_read_loop`
completes without undefined behavior and returns the same count, moves the
tail to the same value, and produces the same output bytes as
`buffy_rx_loop` run on an Rx half holding the same capacity, indices and
storage. -/
theorem br_loop_eq_rx_loop (B : Buffy) (len pos : Nat) :
    ∀ A : Buffy, A.tx_len_pow2 = B.rx_len_pow2 → A.tx_head = B.rx_head →
    A.tx_tail = B.rx_tail → A.tx_buf = B.rx_buf →
    A.tx_len_pow2 ≤ 31 → A.tx_tail < valpow2 A.tx_len_pow2 →
    A.tx_head < valpow2 A.tx_len_pow2 → A.tx_buf.length = valpow2 A.tx_len_pow2 →
    buffy_tx_buffer_read_loop A len pos =
      some ((buffy_rx_loop B len pos).1,
        { A with tx_tail := (buffy_rx_loop B len pos).2.1.rx_tail },
        (buffy_rx_loop B len pos).2.2.1) := by
  induction B, len, pos using buffy_rx_loop.induct with
  | case1 B len pos hlt hguard =>
    intro A hm1 hm2 hm3 hm4 hp ht hh hl
    rw [← hm1, ← hm2, ← hm3] at hguard
    exact absurd hguard (by omega)
  | case2 B len pos hlt hguard heq =>
    intro A hm1 hm2 hm3 hm4 hp ht hh hl
    rw [buffy_rx_loop_empty B len pos hlt hguard heq,
      buffy_tx_buffer_read_loop_empty A len pos hlt (by rw [hm2, hm3]; exact heq)]
    have hA : { A with tx_tail := A.tx_tail } = A := rfl
    rw [← hm3, hA]
  | case3 B len pos hlt hguard heq rl t2 ih =>
    intro A hm1 hm2 hm3 hm4 hp ht hh hl
    obtain ⟨hbr, hposrun⟩ := br_read_len_eq_rx hp ht hh (by rw [hm2, hm3]; exact heq)
    have hrunAB : rx_read_len (valpow2 A.tx_len_pow2) A.tx_tail A.tx_head =
        rx_read_len (valpow2 B.rx_len_pow2) B.rx_tail B.rx_head := by
      rw [hm1, hm2, hm3]
    have hrunle := rx_read_len_le (valpow2 A.tx_len_pow2) A.tx_tail A.tx_head ht hh
    have hrldef : rl = min (rx_read_len (valpow2 B.rx_len_pow2) B.rx_tail B.rx_head)
        (len - pos) := rfl
    have hrlval : (min (br_read_len A.tx_len_pow2 A.tx_tail A.tx_head)
        ((len : Int) - (pos : Int))).toNat = rl := by
      rw [hbr, hrunAB, hrldef]
      omega
    have hrl1 : 1 ≤ rl := by
      rw [hrldef, ← hrunAB]
      omega
    have hrlle : rl ≤ rx_read_len (valpow2 A.tx_len_pow2) A.tx_tail A.tx_head := by
      rw [hrldef, ← hrunAB]
      omega
    rw [buffy_tx_buffer_read_loop_step A len pos rl hlt
      (by rw [hm2, hm3]; exact heq)
      (by rw [hbr, hrunAB]; omega)
      hrlval
      (by omega)
      (by rintro ⟨hc, _⟩; omega)]
    have hm3' : modpow2 (A.tx_tail + rl) A.tx_len_pow2 =
        modpow2 (B.rx_tail + rl) B.rx_len_pow2 := by rw [hm1, hm3]
    have hih := ih { A with tx_tail := modpow2 (A.tx_tail + rl) A.tx_len_pow2 }
      hm1 hm2 hm3' hm4 hp (modpow2_lt _ _) hh hl
    rw [hih]
    rw [buffy_rx_loop_step B len pos rl hlt hguard heq hrldef.symm]
    rw [hm3, hm4]
    rfl
  | case4 B len pos hlt =>
    intro A hm1 hm2 hm3 hm4 hp ht hh hl
    rw [buffy_rx_loop_exit B len pos hlt, buffy_tx_buffer_read_loop_exit A len pos hlt]
    have hA : { A with tx_tail := A.tx_tail } = A := rfl
    rw [← hm3, hA]

/-- `len - pos + 1` loop iterations always suffice for `buffy_tx`: the
fuel-indexed loop never runs out of fuel and computes the loop's value. -/
theorem buffy_tx_loop_fuel_complete (fuel : Nat) :
    ∀ (t : Buffy) (buf : List Nat) (len pos : Nat), len - pos < fuel →
    buffy_tx_loop_fuel fuel t buf len pos = some (buffy_tx_loop t buf len pos) := by
  induction fuel with
  | zero =>
    intro t buf len pos h
    omega
  | succ fuel ih =>
    intro t buf len pos h
    rw [buffy_tx_loop_fuel]
    by_cases hlt : pos < len
    · rw [if_pos hlt]
      by_cases hguard : valpow2 t.tx_len_pow2 ≤ t.tx_tail ∨ valpow2 t.tx_len_pow2 ≤ t.tx_head
      · rw [if_pos hguard, buffy_tx_loop_guard t buf len pos hlt hguard]
      · rw [if_neg hguard]
        by_cases hw : tx_write_len (valpow2 t.tx_len_pow2) t.tx_tail t.tx_head = 0
        · rw [if_pos hw, buffy_tx_loop_full t buf len pos hlt hguard hw]
        · rw [if_neg hw]
          have hrec := ih { t with
              tx_buf := listCopy t.tx_buf t.tx_head buf pos
                (min (tx_write_len (valpow2 t.tx_len_pow2) t.tx_tail t.tx_head) (len - pos)),
              tx_head := modpow2
                (t.tx_head +
                  min (tx_write_len (valpow2 t.tx_len_pow2) t.tx_tail t.tx_head) (len - pos))
                t.tx_len_pow2 } buf len
            (pos + min (tx_write_len (valpow2 t.tx_len_pow2) t.tx_tail t.tx_head) (len - pos))
            (by omega)
          rw [hrec, buffy_tx_loop_step t buf len pos _ hlt hguard hw rfl]
          rfl
    · rw [if_neg hlt, buffy_tx_loop_exit t buf len pos hlt]

/-- `len - pos + 1` loop iterations always suffice for `buffy_rx`. -/
theorem buffy_rx_loop_fuel_complete (fuel : Nat) :
    ∀ (t : Buffy) (len pos : Nat), len - pos < fuel →
    buffy_rx_loop_fuel fuel t len pos = some (buffy_rx_loop t len pos) := by
  induction fuel with
  | zero =>
    intro t len pos h
    omega
  | succ fuel ih =>
    intro t len pos h
    rw [buffy_rx_loop_fuel]
    by_cases hlt : pos < len
    · rw [if_pos hlt]
      by_cases hguard : valpow2 t.rx_len_pow2 ≤ t.rx_tail ∨ valpow2 t.rx_len_pow2 ≤ t.rx_head
      · rw [if_pos hguard, buffy_rx_loop_guard t len pos hlt hguard]
      · rw [if_neg hguard]
        by_cases heq : t.rx_head = t.rx_tail
        · rw [if_pos heq, buffy_rx_loop_empty t len pos hlt hguard heq]
        · rw [if_neg heq]
          have hpos : 0 < rx_read_len (valpow2 t.rx_len_pow2) t.rx_tail t.rx_head := by
            unfold rx_read_len
            split <;> omega
          have hrec := ih { t with rx_tail := (modpow2
              (t.rx_tail +
                min (rx_read_len (valpow2 t.rx_len_pow2) t.rx_tail t.rx_head) (len - pos))
              t.rx_len_pow2) } len
            (pos + min (rx_read_len (valpow2 t.rx_len_pow2) t.rx_tail t.rx_head) (len - pos))
            (by omega)
          rw [hrec, buffy_rx_loop_step t len pos _ hlt hguard heq rfl]
          rfl
    · rw [if_neg hlt, buffy_rx_loop_exit t len pos hlt]

/-- On in-range states, `len - pos + 1` loop iterations always suffice for
`buffy_tx_buffer_read`. -/
theorem buffy_tx_buffer_read_loop_fuel_complete (fuel : Nat) :
    ∀ (t : Buffy) (len pos : Nat), len - pos < fuel →
    t.tx_len_pow2 ≤ 31 → t.tx_tail < valpow2 t.tx_len_pow2 →
    t.tx_head < valpow2 t.tx_len_pow2 → t.tx_buf.length = valpow2 t.tx_len_pow2 →
    buffy_tx_buffer_read_loop_fuel fuel t len pos =
      some (buffy_tx_buffer_read_loop t len pos) := by
  induction fuel with
  | zero =>
    intro t len pos h
    omega
  | succ fuel ih =>
    intro t len pos h hp ht hh hl
    rw [buffy_tx_buffer_read_loop_fuel]
    by_cases hlt : pos < len
    · rw [if_pos hlt]
      by_cases heq : t.tx_head = t.tx_tail
      · rw [if_pos heq, buffy_tx_buffer_read_loop_empty t len pos hlt heq]
      · rw [if_neg heq]
        obtain ⟨hbr, hposrun⟩ := br_read_len_eq_rx hp ht hh heq
        have hle := rx_read_len_le (valpow2 t.tx_len_pow2) t.tx_tail t.tx_head ht hh
        have hrn : (min (br_read_len t.tx_len_pow2 t.tx_tail t.tx_head)
            ((len : Int) - (pos : Int))).toNat =
            min (rx_read_len (valpow2 t.tx_len_pow2) t.tx_tail t.tx_head) (len - pos) := by
          rw [hbr]
          omega
        have hneg : ¬ min (br_read_len t.tx_len_pow2 t.tx_tail t.tx_head)
            ((len : Int) - (pos : Int)) < 0 := by
          rw [hbr]
          omega
        have hoob : ¬ t.tx_buf.length < t.tx_tail +
            (min (br_read_len t.tx_len_pow2 t.tx_tail t.tx_head)
              ((len : Int) - (pos : Int))).toNat := by
          rw [hrn]
          omega
        have hstuck : ¬ ((min (br_read_len t.tx_len_pow2 t.tx_tail t.tx_head)
              ((len : Int) - (pos : Int))).toNat = 0 ∧
            modpow2 (t.tx_tail +
              (min (br_read_len t.tx_len_pow2 t.tx_tail t.tx_head)
                ((len : Int) - (pos : Int))).toNat) t.tx_len_pow2 = t.tx_tail) := by
          rw [hrn]
          rintro ⟨hc, _⟩
          omega
        rw [if_neg hneg, if_neg hoob, if_neg hstuck]
        have hrec := ih { t with tx_tail := (modpow2
            (t.tx_tail +
              (min (br_read_len t.tx_len_pow2 t.tx_tail t.tx_head)
                ((len : Int) - (pos : Int))).toNat) t.tx_len_pow2) } len
          (pos + (min (br_read_len t.tx_len_pow2 t.tx_tail t.tx_head)
            ((len : Int) - (pos : Int))).toNat)
          (by rw [hrn]; omega) hp (modpow2_lt _ _) hh hl
        rw [hrec, buffy_tx_buffer_read_loop_step t len pos _ hlt heq hneg rfl hoob hstuck]
        rfl
    · rw [if_neg hlt, buffy_tx_buffer_read_loop_exit t len pos hlt]

/-- Every reachable state has in-range Tx indices: the operations either
leave an index unchanged, reset it to `0`, or write a `modpow2` value. -/
theorem reachable_tx_inrange (t : Buffy) (h : Reachable t) :
    t.tx_head < valpow2 t.tx_len_pow2 ∧ t.tx_tail < valpow2 t.tx_len_pow2 := by
  induction h with
  | init t h1 h2 h3 h4 =>
    rw [h1, h2]
    exact ⟨valpow2_pos _, valpow2_pos _⟩
  | tx t buf len hr ih =>
    obtain ⟨hh, ht⟩ := ih
    obtain ⟨-, -, hp2, -, -, -, -, -, -, hhead, htail⟩ := buffy_tx_loop_state t buf len 0
    show (buffy_tx_loop t buf len 0).2.1.tx_head <
        valpow2 (buffy_tx_loop t buf len 0).2.1.tx_len_pow2 ∧
      (buffy_tx_loop t buf len 0).2.1.tx_tail <
        valpow2 (buffy_tx_loop t buf len 0).2.1.tx_len_pow2
    rw [hp2]
    constructor
    · rcases hhead with h | h
      · rw [h]; exact hh
      · exact h
    · rcases htail with h | h
      · rw [h]; exact ht
      · rw [h]; exact valpow2_pos _
  | rx t len hr ih =>
    obtain ⟨hh, ht⟩ := ih
    obtain ⟨hp2, htl, hhd, -⟩ := buffy_rx_loop_state t len 0
    show (buffy_rx_loop t len 0).2.1.tx_head <
        valpow2 (buffy_rx_loop t len 0).2.1.tx_len_pow2 ∧
      (buffy_rx_loop t len 0).2.1.tx_tail <
        valpow2 (buffy_rx_loop t len 0).2.1.tx_len_pow2
    rw [hp2, htl, hhd]
    exact ⟨hh, ht⟩
  | txRead t len r hr heq ih =>
    obtain ⟨hh, ht⟩ := ih
    obtain ⟨hp2, hhd, -, htl⟩ := buffy_tx_buffer_read_loop_state t len 0 r heq
    rw [hp2, hhd]
    refine ⟨hh, ?_⟩
    rcases htl with h | h
    · rw [h]; exact ht
    · exact h

theorem tx_eval (t : Buffy) (buf : List Nat) (len : Nat) (x : Nat × Buffy × List Nat)
    (h : buffy_tx_loop_fuel (len + 1) t buf len 0 = some x) : buffy_tx t buf len = x := by
  have hc := buffy_tx_loop_fuel_complete (len + 1) t buf len 0 (by omega)
  rw [buffy_tx]
  exact Option.some.inj (hc.symm.trans h)

theorem rx_eval (t : Buffy) (len : Nat) (x : Nat × Buffy × List Nat × List Nat)
    (h : buffy_rx_loop_fuel (len + 1) t len 0 = some x) : buffy_rx t len = x := by
  have hc := buffy_rx_loop_fuel_complete (len + 1) t len 0 (by omega)
  rw [buffy_rx]
  exact Option.some.inj (hc.symm.trans h)

/-- C10: the corruption guard also runs on the enqueue side.  Any `buffy_tx`
call with positive requested length from a state whose Tx head or tail is at
or beyond the capacity writes no byte to storage (the state equality keeps
`tx_buf` untouched and the access trace is empty), resets both Tx indices to
zero, and returns 0, discarding all queued unread Tx data. -/
theorem tx_guard_resets_and_returns_zero (t : Buffy) (buf : List Nat) (len : Nat)
    (hlen : 1 ≤ len)
    (hcorrupt : valpow2 t.tx_len_pow2 ≤ t.tx_head ∨ valpow2 t.tx_len_pow2 ≤ t.tx_tail) :
    buffy_tx t buf len = (0, { t with tx_tail := 0, tx_head := 0 }, []) := by
  rw [buffy_tx, buffy_tx_loop_guard t buf len 0 (by omega) hcorrupt.symm]

/-- Witness for C10 at a concrete corrupted state. -/
theorem tx_guard_resets_and_returns_zero_witness :
    (1 ≤ 3 ∧
      (valpow2 txCorruptState.tx_len_pow2 ≤ txCorruptState.tx_head ∨
        valpow2 txCorruptState.tx_len_pow2 ≤ txCorruptState.tx_tail)) ∧
    buffy_tx txCorruptState [1, 2, 3] 3 =
      (0, { txCorruptState with tx_tail := 0, tx_head := 0 }, []) :=
  ⟨⟨by omega, by decide⟩,
    tx_guard_resets_and_returns_zero txCorruptState [1, 2, 3] 3 (by omega) (by decide)⟩

/-- C4 counterexample: the claim asserts the reset happens independent of
the requested length, but a `buffy_rx` call with requested length 0 never
executes the guard: it returns 0 yet leaves the corrupted index in place. -/
theorem rx_corrupt_len_zero_counterexample :
    (valpow2 rxCorruptState.rx_len_pow2 ≤ rxCorruptState.rx_head ∨
      valpow2 rxCorruptState.rx_len_pow2 ≤ rxCorruptState.rx_tail) ∧
    (buffy_rx rxCorruptState 0).1 = 0 ∧
    ¬ ((buffy_rx rxCorruptState 0).2.1.rx_head = 0 ∧
       (buffy_rx rxCorruptState 0).2.1.rx_tail = 0) := by
  have h : buffy_rx rxCorruptState 0 = (0, rxCorruptState, [], []) := by
    rw [buffy_rx, buffy_rx_loop_exit _ 0 0 (by omega)]
  refine ⟨by decide, ?_, ?_⟩
  · rw [h]
  · rw [h]
    decide

/-- C4 amended: for every requested length ≥ 1, calling `buffy_rx` on a
state with `rx_head ≥ capacity` or `rx_tail ≥ capacity` returns 0 and leaves
both Rx indices equal to 0, independent of what was previously stored. -/
theorem rx_corrupt_resets_and_returns_zero (t : Buffy) (len : Nat) (hlen : 1 ≤ len)
    (hcorrupt : valpow2 t.rx_len_pow2 ≤ t.rx_head ∨ valpow2 t.rx_len_pow2 ≤ t.rx_tail) :
    buffy_rx t len = (0, { t with rx_tail := 0, rx_head := 0 }, [], []) ∧
    (buffy_rx t len).2.1.rx_head = 0 ∧ (buffy_rx t len).2.1.rx_tail = 0 := by
  have h : buffy_rx t len = (0, { t with rx_tail := 0, rx_head := 0 }, [], []) := by
    rw [buffy_rx, buffy_rx_loop_guard t len 0 (by omega) hcorrupt.symm]
  refine ⟨h, ?_, ?_⟩ <;> rw [h]

/-- Witness for the amended C4 at a concrete corrupted state. -/
theorem rx_corrupt_resets_and_returns_zero_witness :
    (1 ≤ 5 ∧
      (valpow2 rxCorruptState.rx_len_pow2 ≤ rxCorruptState.rx_head ∨
        valpow2 rxCorruptState.rx_len_pow2 ≤ rxCorruptState.rx_tail)) ∧
    (buffy_rx rxCorruptState 5 = (0, { rxCorruptState with rx_tail := 0, rx_head := 0 }, [], []) ∧
      (buffy_rx rxCorruptState 5).2.1.rx_head = 0 ∧ (buffy_rx rxCorruptState 5).2.1.rx_tail = 0) :=
  ⟨⟨by omega, by decide⟩,
    rx_corrupt_resets_and_returns_zero rxCorruptState 5 (by omega) (by decide)⟩

/-- C5: on every state reachable from an initial state by any sequence of
operations, `buffy_tx_get_buffer_free` plus
`used = (head - tail) mod capacity` equals `capacity - 1`. -/
theorem free_plus_used_equals_capacity_minus_one (t : Buffy) (h : Reachable t) :
    (buffy_tx_get_buffer_free t : Int) +
      ((t.tx_head : Int) - (t.tx_tail : Int)) % (valpow2 t.tx_len_pow2 : Int) =
      (valpow2 t.tx_len_pow2 : Int) - 1 := by
  obtain ⟨hh, ht⟩ := reachable_tx_inrange t h
  exact free_add_used t hh ht

/-- Witness for C5 at the concrete initial state. -/
theorem free_plus_used_equals_capacity_minus_one_witness :
    Reachable zeroState ∧
    (buffy_tx_get_buffer_free zeroState : Int) +
      ((zeroState.tx_head : Int) - (zeroState.tx_tail : Int)) %
        (valpow2 zeroState.tx_len_pow2 : Int) =
      (valpow2 zeroState.tx_len_pow2 : Int) - 1 :=
  ⟨Reachable.init zeroState rfl rfl rfl rfl,
    free_plus_used_equals_capacity_minus_one zeroState
      (Reachable.init zeroState rfl rfl rfl rfl)⟩

theorem buffy_tx_loop_trace (t : Buffy) (buf : List Nat) (len pos : Nat) :
    ∀ i ∈ (buffy_tx_loop t buf len pos).2.2, i < valpow2 t.tx_len_pow2 := by
  induction t, buf, len, pos using buffy_tx_loop.induct with
  | case1 t buf len pos hlt hguard =>
    rw [buffy_tx_loop_guard t buf len pos hlt hguard]
    intro i hi
    exact absurd hi (List.not_mem_nil i)
  | case2 t buf len pos hlt hguard hw =>
    rw [buffy_tx_loop_full t buf len pos hlt hguard hw]
    intro i hi
    exact absurd hi (List.not_mem_nil i)
  | case3 t buf len pos hlt hguard hw wl t2 ih =>
    rw [buffy_tx_loop_step t buf len pos wl hlt hguard hw rfl]
    intro i hi
    rw [List.mem_append] at hi
    rcases hi with hi | hi
    · simp only [List.mem_map, List.mem_range] at hi
      obtain ⟨j, hj, rfl⟩ := hi
      have ht : t.tx_tail < valpow2 t.tx_len_pow2 := by omega
      have hh : t.tx_head < valpow2 t.tx_len_pow2 := by omega
      have hbound := (tx_write_len_le_fm (valpow2 t.tx_len_pow2) t.tx_tail t.tx_head ht hh).2.2
      have hwl : wl = min (tx_write_len (valpow2 t.tx_len_pow2) t.tx_tail t.tx_head)
          (len - pos) := rfl
      omega
    · exact ih i hi
  | case4 t buf len pos hlt =>
    rw [buffy_tx_loop_exit t buf len pos hlt]
    intro i hi
    exact absurd hi (List.not_mem_nil i)

theorem buffy_rx_loop_trace (t : Buffy) (len pos : Nat) :
    ∀ i ∈ (buffy_rx_loop t len pos).2.2.2, i < valpow2 t.rx_len_pow2 := by
  induction t, len, pos using buffy_rx_loop.induct with
  | case1 t len pos hlt hguard =>
    rw [buffy_rx_loop_guard t len pos hlt hguard]
    intro i hi
    exact absurd hi (List.not_mem_nil i)
  | case2 t len pos hlt hguard heq =>
    rw [buffy_rx_loop_empty t len pos hlt hguard heq]
    intro i hi
    exact absurd hi (List.not_mem_nil i)
  | case3 t len pos hlt hguard heq rl t2 ih =>
    rw [buffy_rx_loop_step t len pos rl hlt hguard heq rfl]
    intro i hi
    rw [List.mem_append] at hi
    rcases hi with hi | hi
    · simp only [List.mem_map, List.mem_range] at hi
      obtain ⟨j, hj, rfl⟩ := hi
      have ht : t.rx_tail < valpow2 t.rx_len_pow2 := by omega
      have hh : t.rx_head < valpow2 t.rx_len_pow2 := by omega
      have hbound := rx_read_len_le (valpow2 t.rx_len_pow2) t.rx_tail t.rx_head ht hh
      have hrl : rl = min (rx_read_len (valpow2 t.rx_len_pow2) t.rx_tail t.rx_head)
          (len - pos) := rfl
      omega
    · exact ih i hi
  | case4 t len pos hlt =>
    rw [buffy_rx_loop_exit t len pos hlt]
    intro i hi
    exact absurd hi (List.not_mem_nil i)

/-- C7: for every call to `buffy_tx` or `buffy_rx`, with arbitrary initial
head and tail values (including out-of-range values written by an external
actor), every storage index at which the `memcpy` reads or writes the ring
storage lies strictly below the capacity, so no out-of-bounds array access
occurs. -/
theorem storage_accesses_in_bounds (t : Buffy) (buf : List Nat) (len : Nat) :
    (∀ i ∈ (buffy_tx t buf len).2.2, i < valpow2 t.tx_len_pow2) ∧
    (∀ i ∈ (buffy_rx t len).2.2.2, i < valpow2 t.rx_len_pow2) :=
  ⟨buffy_tx_loop_trace t buf len 0, buffy_rx_loop_trace t len 0⟩

/-- Witness for C7: a concrete call whose trace is nonempty, at which
the bound yields an in-bounds index. -/
theorem storage_accesses_in_bounds_witness :
    0 ∈ (buffy_tx zeroState [9] 1).2.2 ∧ 0 < valpow2 zeroState.tx_len_pow2 := by
  have h : buffy_tx zeroState [9] 1 =
      (1,
        { zeroState with tx_head := 1,
                         tx_buf := (List.replicate 16 0).set 0 9 },
        [0]) := by
    apply tx_eval
    decide
  have hm : 0 ∈ (buffy_tx zeroState [9] 1).2.2 := by
    rw [h]
    decide
  exact ⟨hm, (storage_accesses_in_bounds zeroState [9] 1).1 0 hm⟩

/-- C2: on every in-range state, each `buffy_tx` loop iteration computes the
writable run exactly as specified (capacity - head - 1 when head ≥ tail and
tail = 0; capacity - head when head ≥ tail and tail ≠ 0; tail - head - 1
when head < tail); a zero run stops the loop and returns the bytes written
so far (bumping the overflow counter), and a nonzero run copies
min(run, remaining) bytes into storage at head, advances head by that amount
modulo capacity, and loops. -/
theorem tx_iteration_matches_spec_run (t : Buffy) (buf : List Nat) (len pos : Nat)
    (hlt : pos < len) (ht : t.tx_tail < valpow2 t.tx_len_pow2)
    (hh : t.tx_head < valpow2 t.tx_len_pow2) :
    (spec_write_run (valpow2 t.tx_len_pow2) t.tx_head t.tx_tail = 0 →
      buffy_tx_loop t buf len pos =
        (pos, { t with tx_overflow_counter := t.tx_overflow_counter + 1 }, [])) ∧
    (spec_write_run (valpow2 t.tx_len_pow2) t.tx_head t.tx_tail ≠ 0 →
      ∀ wl, min (spec_write_run (valpow2 t.tx_len_pow2) t.tx_head t.tx_tail) (len - pos) = wl →
      (buffy_tx_loop t buf len pos).1 =
        (buffy_tx_loop { t with
            tx_buf := listCopy t.tx_buf t.tx_head buf pos wl,
            tx_head := modpow2 (t.tx_head + wl) t.tx_len_pow2 } buf len (pos + wl)).1 ∧
      (buffy_tx_loop t buf len pos).2.1 =
        (buffy_tx_loop { t with
            tx_buf := listCopy t.tx_buf t.tx_head buf pos wl,
            tx_head := modpow2 (t.tx_head + wl) t.tx_len_pow2 } buf len (pos + wl)).2.1) := by
  have hspec : spec_write_run (valpow2 t.tx_len_pow2) t.tx_head t.tx_tail =
      tx_write_len (valpow2 t.tx_len_pow2) t.tx_tail t.tx_head := rfl
  have hguard : ¬ (valpow2 t.tx_len_pow2 ≤ t.tx_tail ∨ valpow2 t.tx_len_pow2 ≤ t.tx_head) := by
    omega
  constructor
  · intro hzero
    rw [hspec] at hzero
    rw [buffy_tx_loop_full t buf len pos hlt hguard hzero]
  · intro hnz wl hwl
    rw [hspec] at hnz hwl
    rw [buffy_tx_loop_step t buf len pos wl hlt hguard hnz hwl]
    exact ⟨rfl, rfl⟩

/-- Witness for C2 at a concrete in-range state. -/
theorem tx_iteration_matches_spec_run_witness :
    ((0 : Nat) < 3 ∧ midState.tx_tail < valpow2 midState.tx_len_pow2 ∧
      midState.tx_head < valpow2 midState.tx_len_pow2) ∧
    ((spec_write_run (valpow2 midState.tx_len_pow2) midState.tx_head midState.tx_tail = 0 →
      buffy_tx_loop midState [1, 2, 3] 3 0 =
        (0, { midState with tx_overflow_counter := midState.tx_overflow_counter + 1 }, [])) ∧
    (spec_write_run (valpow2 midState.tx_len_pow2) midState.tx_head midState.tx_tail ≠ 0 →
      ∀ wl, min (spec_write_run (valpow2 midState.tx_len_pow2) midState.tx_head
          midState.tx_tail) (3 - 0) = wl →
      (buffy_tx_loop midState [1, 2, 3] 3 0).1 =
        (buffy_tx_loop { midState with
            tx_buf := listCopy midState.tx_buf midState.tx_head [1, 2, 3] 0 wl,
            tx_head := modpow2 (midState.tx_head + wl) midState.tx_len_pow2 }
          [1, 2, 3] 3 (0 + wl)).1 ∧
      (buffy_tx_loop midState [1, 2, 3] 3 0).2.1 =
        (buffy_tx_loop { midState with
            tx_buf := listCopy midState.tx_buf midState.tx_head [1, 2, 3] 0 wl,
            tx_head := modpow2 (midState.tx_head + wl) midState.tx_len_pow2 }
          [1, 2, 3] 3 (0 + wl)).2.1)) :=
  ⟨⟨by omega, by decide, by decide⟩,
    tx_iteration_matches_spec_run midState [1, 2, 3] 3 0 (by omega) (by decide) (by decide)⟩

/-- C6 counterexample: the claim says the overflow counter increments iff
the buffer is full (`used = capacity - 1`) at call start.  But a 16-byte
request from a half-full buffer (used = 8) fills the buffer mid-call and
increments the counter, refuting the only-if direction. -/
theorem tx_overflow_nonfull_counterexample :
    (buffy_tx overflowMidState (List.replicate 16 7) 16).2.1.tx_overflow_counter =
      overflowMidState.tx_overflow_counter + 1 ∧
    ((overflowMidState.tx_head : Int) - (overflowMidState.tx_tail : Int)) %
        (valpow2 overflowMidState.tx_len_pow2 : Int) ≠
      (valpow2 overflowMidState.tx_len_pow2 : Int) - 1 := by
  have h := tx_eval overflowMidState (List.replicate 16 7) 16 _ rfl
  rw [h]
  exact ⟨by decide, by decide⟩

/-- C6 amended: on every state with in-range indices, a `buffy_tx` call
increments `tx_overflow_counter` by exactly 1 if and only if the requested
length exceeds the free space at call start (equivalently, some iteration
finds the buffer full) — in particular a full buffer with a request of
length ≥ 1 increments it by exactly 1 — and otherwise leaves it unchanged;
it never increments by more than 1 per call. -/
theorem tx_overflow_increment_iff_request_exceeds_free (t : Buffy) (buf : List Nat)
    (len : Nat) (ht : t.tx_tail < valpow2 t.tx_len_pow2)
    (hh : t.tx_head < valpow2 t.tx_len_pow2) :
    (buffy_tx t buf len).2.1.tx_overflow_counter =
      t.tx_overflow_counter + (if buffy_tx_get_buffer_free t < len then 1 else 0) := by
  have h := (buffy_tx_loop_master t buf len 0 ht hh).2
  show (buffy_tx_loop t buf len 0).2.1.tx_overflow_counter = _
  rw [h, Nat.sub_zero]
  by_cases hc : len ≤ buffy_tx_get_buffer_free t
  · rw [if_pos hc, if_neg (by omega)]
  · rw [if_neg hc, if_pos (by omega)]

/-- Witness for the amended C6 at a concrete state: a 16-byte request from
free space 7 increments the counter once. -/
theorem tx_overflow_increment_witness :
    (overflowMidState.tx_tail < valpow2 overflowMidState.tx_len_pow2 ∧
      overflowMidState.tx_head < valpow2 overflowMidState.tx_len_pow2) ∧
    (buffy_tx overflowMidState (List.replicate 16 9) 16).2.1.tx_overflow_counter =
      overflowMidState.tx_overflow_counter +
        (if buffy_tx_get_buffer_free overflowMidState < 16 then 1 else 0) :=
  ⟨⟨by decide, by decide⟩,
    tx_overflow_increment_iff_request_exceeds_free overflowMidState (List.replicate 16 9) 16
      (by decide) (by decide)⟩

/-- C1: from an initially empty channel, for every sequence of `buffy_tx`
calls whose total requested length is at most capacity - 1, with no
interleaved read, every call returns its full requested length, and a
subsequent `buffy_tx_buffer_read` with sufficient maxLen returns exactly
the concatenation of all written bytes, in order. -/
theorem tx_sequence_then_buffer_read_roundtrip (t : Buffy) (ws : List (List Nat))
    (maxLen : Nat) (hhead : t.tx_head = 0) (htail : t.tx_tail = 0)
    (hp : t.tx_len_pow2 ≤ 31) (hlen : t.tx_buf.length = valpow2 t.tx_len_pow2)
    (htot : (ws.map List.length).sum ≤ valpow2 t.tx_len_pow2 - 1)
    (hmax : (ws.map List.length).sum ≤ maxLen) :
    txWriteSeqFull t ws ∧
    ∃ t' : Buffy, buffy_tx_buffer_read (txWriteSeq t ws) maxLen =
      some ((ws.map List.length).sum, t', ws.join) := by
  obtain ⟨hfull, htl, hhd, hp2, hbl, htake⟩ := txWriteSeq_inv ws t htail hlen (by omega)
  have hfront := buffy_tx_buffer_read_front (txWriteSeq t ws) maxLen htl
    (by rw [hp2]; exact hp)
    (by rw [hhd, hp2, hhead]; omega)
    (by rw [hbl, hp2, hlen])
    (by rw [hhd, hhead]; omega)
  have h1 : (txWriteSeq t ws).tx_head = (ws.map List.length).sum := by
    rw [hhd, hhead, Nat.zero_add]
  have h3 : (txWriteSeq t ws).tx_buf.take (txWriteSeq t ws).tx_head = ws.join := by
    rw [hhead, Nat.zero_add, List.take_zero, List.nil_append] at htake
    rw [h1]
    exact htake
  rw [h3, h1] at hfront
  exact ⟨hfull, ⟨_, hfront⟩⟩

/-- Witness for C1: two writes of 2 and 1 bytes into a fresh 16-byte
channel, then a 3-byte inspection read. -/
theorem tx_sequence_then_buffer_read_roundtrip_witness :
    (zeroState.tx_head = 0 ∧ zeroState.tx_tail = 0 ∧ zeroState.tx_len_pow2 ≤ 31 ∧
      zeroState.tx_buf.length = valpow2 zeroState.tx_len_pow2 ∧
      (([[1, 2], [3]] : List (List Nat)).map List.length).sum ≤
        valpow2 zeroState.tx_len_pow2 - 1 ∧
      (([[1, 2], [3]] : List (List Nat)).map List.length).sum ≤ 3) ∧
    (txWriteSeqFull zeroState [[1, 2], [3]] ∧
      ∃ t' : Buffy, buffy_tx_buffer_read (txWriteSeq zeroState [[1, 2], [3]]) 3 =
        some ((([[1, 2], [3]] : List (List Nat)).map List.length).sum, t',
          ([[1, 2], [3]] : List (List Nat)).join)) :=
  ⟨⟨rfl, rfl, by decide, by decide, by decide, by decide⟩,
    tx_sequence_then_buffer_read_roundtrip zeroState [[1, 2], [3]] 3 rfl rfl
      (by decide) (by decide) (by decide) (by decide)⟩

/-- C3 counterexample: from the wrapped state of the repository's `test_rx`
(capacity 8, tail 2, head 1) a single `buffy_rx` call returns 7 bytes —
more than the contiguous run `capacity - tail = 6` — because the while loop
continues from index 0 within the same call; no second call is required. -/
theorem rx_single_call_crosses_wrap_counterexample :
    (rxWrapState.rx_head < rxWrapState.rx_tail ∧
      rxWrapState.rx_tail < valpow2 rxWrapState.rx_len_pow2) ∧
    (buffy_rx rxWrapState 8).1 = 7 ∧
    ¬ ((buffy_rx rxWrapState 8).1 ≤
        valpow2 rxWrapState.rx_len_pow2 - rxWrapState.rx_tail) := by
  have h := rx_eval rxWrapState 8 _ rfl
  refine ⟨⟨by decide, by decide⟩, ?_, ?_⟩ <;> rw [h] <;> decide

/-- C3 amended: when the unread region wraps past the end of the backing
array (`head < tail`, in range), a single `buffy_rx` call with sufficient
requested length does NOT stop at the array's physical end: it reads the
contiguous run from `tail` to the end and then continues from index 0
within the same call, returning all `head + capacity - tail` unread bytes
(the end run followed by the wrapped prefix) — a second call is not
required. -/
theorem rx_wrapped_single_call_drains (t : Buffy) (len : Nat)
    (hw : t.rx_head < t.rx_tail) (ht : t.rx_tail < valpow2 t.rx_len_pow2)
    (hlen : t.rx_buf.length = valpow2 t.rx_len_pow2)
    (hreq : t.rx_head + (valpow2 t.rx_len_pow2 - t.rx_tail) ≤ len) :
    (buffy_rx t len).1 = t.rx_head + (valpow2 t.rx_len_pow2 - t.rx_tail) ∧
    (buffy_rx t len).2.2.1 = t.rx_buf.drop t.rx_tail ++ t.rx_buf.take t.rx_head := by
  have hcap : 0 < valpow2 t.rx_len_pow2 := valpow2_pos _
  have hh : t.rx_head < valpow2 t.rx_len_pow2 := by omega
  have hrl1 : rx_read_len (valpow2 t.rx_len_pow2) t.rx_tail t.rx_head =
      valpow2 t.rx_len_pow2 - t.rx_tail := by
    unfold rx_read_len
    rw [if_neg (by omega)]
  have hstep1 := buffy_rx_loop_step t len 0 (valpow2 t.rx_len_pow2 - t.rx_tail)
    (by omega) (by omega) (by omega) (by rw [hrl1]; omega)
  have ht2 : { t with rx_tail := (modpow2
      (t.rx_tail + (valpow2 t.rx_len_pow2 - t.rx_tail)) t.rx_len_pow2) } =
      { t with rx_tail := 0 } := by
    have hsum : t.rx_tail + (valpow2 t.rx_len_pow2 - t.rx_tail) = valpow2 t.rx_len_pow2 := by
      omega
    rw [hsum, show modpow2 (valpow2 t.rx_len_pow2) t.rx_len_pow2 = 0 from by
      rw [modpow2_eq_mod, valpow2, Nat.mod_self]]
  rw [ht2, Nat.zero_add] at hstep1
  have hchunk1 : listRead t.rx_buf t.rx_tail (valpow2 t.rx_len_pow2 - t.rx_tail) =
      t.rx_buf.drop t.rx_tail := by
    rw [listRead_eq_drop_take _ _ _ (by omega)]
    exact List.take_of_length_le (by rw [List.length_drop]; omega)
  rcases Nat.eq_zero_or_pos t.rx_head with h0 | h1
  · have hend : buffy_rx_loop { t with rx_tail := 0 } len
        (valpow2 t.rx_len_pow2 - t.rx_tail) =
        (valpow2 t.rx_len_pow2 - t.rx_tail, { t with rx_tail := 0 }, [], []) := by
      rcases Nat.lt_or_ge (valpow2 t.rx_len_pow2 - t.rx_tail) len with hc | hc
      · exact buffy_rx_loop_empty _ _ _ hc
          (show ¬ (valpow2 t.rx_len_pow2 ≤ 0 ∨ valpow2 t.rx_len_pow2 ≤ t.rx_head) from
            by omega)
          (show t.rx_head = 0 from h0)
      · exact buffy_rx_loop_exit _ _ _ (by omega)
    rw [buffy_rx, hstep1, hend]
    constructor
    · show valpow2 t.rx_len_pow2 - t.rx_tail = _
      omega
    · show listRead t.rx_buf t.rx_tail (valpow2 t.rx_len_pow2 - t.rx_tail) ++ [] = _
      rw [List.append_nil, hchunk1, h0, List.take_zero, List.append_nil]
  · have hrl2 : rx_read_len (valpow2 t.rx_len_pow2) 0 t.rx_head = t.rx_head := by
      unfold rx_read_len
      rw [if_pos h1, Nat.sub_zero]
    have hstep2 := buffy_rx_loop_step { t with rx_tail := 0 } len
      (valpow2 t.rx_len_pow2 - t.rx_tail) t.rx_head
      (show valpow2 t.rx_len_pow2 - t.rx_tail < len from by omega)
      (show ¬ (valpow2 t.rx_len_pow2 ≤ 0 ∨ valpow2 t.rx_len_pow2 ≤ t.rx_head) from by omega)
      (show ¬ t.rx_head = 0 from by omega)
      (show min (rx_read_len (valpow2 t.rx_len_pow2) 0 t.rx_head)
        (len - (valpow2 t.rx_len_pow2 - t.rx_tail)) = t.rx_head from by rw [hrl2]; omega)
    have ht3 : { ({ t with rx_tail := 0 } : Buffy) with
        rx_tail := (modpow2 (0 + t.rx_head) t.rx_len_pow2) } =
        { t with rx_tail := t.rx_head } := by
      rw [Nat.zero_add, modpow2_eq_self hh]
    rw [ht3] at hstep2
    have hend : buffy_rx_loop { t with rx_tail := t.rx_head } len
        ((valpow2 t.rx_len_pow2 - t.rx_tail) + t.rx_head) =
        ((valpow2 t.rx_len_pow2 - t.rx_tail) + t.rx_head, { t with rx_tail := t.rx_head },
          [], []) := by
      rcases Nat.lt_or_ge ((valpow2 t.rx_len_pow2 - t.rx_tail) + t.rx_head) len with hc | hc
      · exact buffy_rx_loop_empty _ _ _ hc
          (show ¬ (valpow2 t.rx_len_pow2 ≤ t.rx_head ∨ valpow2 t.rx_len_pow2 ≤ t.rx_head)
            from by omega)
          (show t.rx_head = t.rx_head from rfl)
      · exact buffy_rx_loop_exit _ _ _ (by omega)
    rw [buffy_rx, hstep1, hstep2, hend]
    constructor
    · show valpow2 t.rx_len_pow2 - t.rx_tail + t.rx_head = _
      omega
    · show listRead t.rx_buf t.rx_tail (valpow2 t.rx_len_pow2 - t.rx_tail) ++
          (listRead t.rx_buf 0 t.rx_head ++ []) = _
      rw [List.append_nil, hchunk1]
      congr 1
      rw [listRead_eq_drop_take _ _ _ (by omega), List.drop_zero]

/-- Witness for the amended C3 at the `test_rx` scenario: the call returns
all 7 unread bytes, crossing the wrap in one call. -/
theorem rx_wrapped_single_call_drains_witness :
    (rxWrapState.rx_head < rxWrapState.rx_tail ∧
      rxWrapState.rx_tail < valpow2 rxWrapState.rx_len_pow2 ∧
      rxWrapState.rx_buf.length = valpow2 rxWrapState.rx_len_pow2 ∧
      rxWrapState.rx_head + (valpow2 rxWrapState.rx_len_pow2 - rxWrapState.rx_tail) ≤ 8) ∧
    ((buffy_rx rxWrapState 8).1 =
      rxWrapState.rx_head + (valpow2 rxWrapState.rx_len_pow2 - rxWrapState.rx_tail) ∧
    (buffy_rx rxWrapState 8).2.2.1 =
      rxWrapState.rx_buf.drop rxWrapState.rx_tail ++
        rxWrapState.rx_buf.take rxWrapState.rx_head) :=
  ⟨⟨by decide, by decide, by decide, by decide⟩,
    rx_wrapped_single_call_drains rxWrapState 8 (by decide) (by decide) (by decide)
      (by decide)⟩

/-- C8 counterexample: on a state whose indices are out of range
(head = 16 = capacity), `buffy_tx_buffer_read` does NOT behave like
`buffy_rx` on the same channel contents: `buffy_rx`'s corruption guard
returns 0 and resets the indices, while `buffer_read` (which has no guard)
returns 1 byte and moves the tail to 1. -/
theorem buffer_read_vs_rx_corrupt_counterexample :
    (valpow2 mirrorCorruptState.tx_len_pow2 ≤ mirrorCorruptState.tx_head ∧
      mirrorCorruptState.tx_len_pow2 = mirrorCorruptState.rx_len_pow2 ∧
      mirrorCorruptState.tx_head = mirrorCorruptState.rx_head ∧
      mirrorCorruptState.tx_tail = mirrorCorruptState.rx_tail ∧
      mirrorCorruptState.tx_buf = mirrorCorruptState.rx_buf) ∧
    (buffy_tx_buffer_read mirrorCorruptState 1).map (fun r => r.1) = some 1 ∧
    (buffy_rx mirrorCorruptState 1).1 = 0 ∧
    (buffy_tx_buffer_read mirrorCorruptState 1).map (fun r => r.2.1.tx_tail) = some 1 ∧
    (buffy_rx mirrorCorruptState 1).2.1.rx_tail = 0 := by
  have hbr1 := buffy_tx_buffer_read_loop_step mirrorCorruptState 1 0 1 (by decide)
    (by decide) (by decide) (by decide) (by decide) (by decide)
  have hbr2 := buffy_tx_buffer_read_loop_exit
    { mirrorCorruptState with
      tx_tail := (modpow2 (mirrorCorruptState.tx_tail + 1) mirrorCorruptState.tx_len_pow2) }
    1 (0 + 1) (by omega)
  have hrx := rx_eval mirrorCorruptState 1 _ rfl
  refine ⟨⟨by decide, by decide, by decide, by decide, by decide⟩, ?_, ?_, ?_, ?_⟩
  · rw [buffy_tx_buffer_read, hbr1, hbr2]
    decide
  · rw [hrx]
  · rw [buffy_tx_buffer_read, hbr1, hbr2]
    decide
  · rw [hrx]

/-- C8 amended: on every channel state whose indices are in range
(`head < capacity` and `tail < capacity`, the situation `buffy_rx`'s own
guard establishes), `buffy_tx_buffer_read` behaves exactly like `buffy_rx`
applied to a channel half holding the same capacity, indices and storage:
it completes, returns the same count, writes the same bytes to the
caller's buffer, and leaves the (tx) tail index at the same value the rx
tail would take.  On out-of-range states the two differ, because only
`buffy_rx` has the corruption guard (see the counterexample). -/
theorem buffer_read_eq_rx_on_inrange (A B : Buffy) (len : Nat)
    (hm1 : A.tx_len_pow2 = B.rx_len_pow2) (hm2 : A.tx_head = B.rx_head)
    (hm3 : A.tx_tail = B.rx_tail) (hm4 : A.tx_buf = B.rx_buf)
    (hp : A.tx_len_pow2 ≤ 31) (ht : A.tx_tail < valpow2 A.tx_len_pow2)
    (hh : A.tx_head < valpow2 A.tx_len_pow2)
    (hl : A.tx_buf.length = valpow2 A.tx_len_pow2) :
    buffy_tx_buffer_read A len =
      some ((buffy_rx B len).1, { A with tx_tail := (buffy_rx B len).2.1.rx_tail },
        (buffy_rx B len).2.2.1) := by
  rw [buffy_tx_buffer_read, buffy_rx]
  exact br_loop_eq_rx_loop B len 0 A hm1 hm2 hm3 hm4 hp ht hh hl

/-- Witness for the amended C8 on a concrete in-range mirrored state. -/
theorem buffer_read_eq_rx_on_inrange_witness :
    (mirrorState.tx_len_pow2 = mirrorState.rx_len_pow2 ∧
      mirrorState.tx_head = mirrorState.rx_head ∧
      mirrorState.tx_tail = mirrorState.rx_tail ∧
      mirrorState.tx_buf = mirrorState.rx_buf ∧
      mirrorState.tx_len_pow2 ≤ 31 ∧
      mirrorState.tx_tail < valpow2 mirrorState.tx_len_pow2 ∧
      mirrorState.tx_head < valpow2 mirrorState.tx_len_pow2 ∧
      mirrorState.tx_buf.length = valpow2 mirrorState.tx_len_pow2) ∧
    buffy_tx_buffer_read mirrorState 8 =
      some ((buffy_rx mirrorState 8).1,
        { mirrorState with tx_tail := (buffy_rx mirrorState 8).2.1.rx_tail },
        (buffy_rx mirrorState 8).2.2.1) :=
  ⟨⟨rfl, rfl, rfl, rfl, by decide, by decide, by decide, by decide⟩,
    buffer_read_eq_rx_on_inrange mirrorState mirrorState 8 rfl rfl rfl rfl
      (by decide) (by decide) (by decide) (by decide)⟩

/-- C9 counterexample: from a state with `tail = 20 > capacity = 16`,
`buffy_tx_buffer_read` (which, unlike the other two loops, has no
corruption guard) computes the `int` read length `16 - 20 = -4` and calls
`memcpy` with a negative length — undefined behavior, modeled as `none` —
so the claim that all three functions are total for every state, with each
iteration strictly increasing the transferred count, fails. -/
theorem buffer_read_negative_memcpy_counterexample :
    buffy_tx_buffer_read brCorruptState 1 = none := by
  rw [buffy_tx_buffer_read]
  unfold buffy_tx_buffer_read_loop
  rw [dif_pos (by decide : (0:Nat) < 1), dif_neg (by decide), dif_pos (by decide)]

/-- C9 amended: `buffy_tx` and `buffy_rx` terminate for every state —
including arbitrary index values — within `len - pos + 1` loop iterations
(the fuel-indexed loop computes their value); `buffy_tx_buffer_read` does
so for every state with in-range indices, and then completes without
undefined behavior; from a corrupted state `buffy_tx_buffer_read` can
instead invoke `memcpy` with a negative length (see the counterexample). -/
theorem loops_terminate_within_request_bound :
    (∀ (fuel : Nat) (t : Buffy) (buf : List Nat) (len pos : Nat), len - pos < fuel →
      buffy_tx_loop_fuel fuel t buf len pos = some (buffy_tx_loop t buf len pos)) ∧
    (∀ (fuel : Nat) (t : Buffy) (len pos : Nat), len - pos < fuel →
      buffy_rx_loop_fuel fuel t len pos = some (buffy_rx_loop t len pos)) ∧
    (∀ (fuel : Nat) (t : Buffy) (len pos : Nat), len - pos < fuel →
      t.tx_len_pow2 ≤ 31 → t.tx_tail < valpow2 t.tx_len_pow2 →
      t.tx_head < valpow2 t.tx_len_pow2 → t.tx_buf.length = valpow2 t.tx_len_pow2 →
      buffy_tx_buffer_read_loop_fuel fuel t len pos =
        some (buffy_tx_buffer_read_loop t len pos) ∧
      (buffy_tx_buffer_read_loop t len pos).isSome) := by
  refine ⟨fun fuel t buf len pos h => buffy_tx_loop_fuel_complete fuel t buf len pos h,
    fun fuel t len pos h => buffy_rx_loop_fuel_complete fuel t len pos h,
    fun fuel t len pos h hp ht hh hl =>
      ⟨buffy_tx_buffer_read_loop_fuel_complete fuel t len pos h hp ht hh hl, ?_⟩⟩
  have hmirror := br_loop_eq_rx_loop
    { t with rx_len_pow2 := t.tx_len_pow2, rx_head := t.tx_head, rx_tail := t.tx_tail,
             rx_buf := t.tx_buf }
    len pos t rfl rfl rfl rfl hp ht hh hl
  rw [hmirror]
  rfl

/-- Witness for the amended C9 at concrete states and fuel. -/
theorem loops_terminate_within_request_bound_witness :
    (buffy_tx_loop_fuel 3 zeroState [4, 5] 2 0 = some (buffy_tx_loop zeroState [4, 5] 2 0)) ∧
    (buffy_rx_loop_fuel 3 zeroState 2 0 = some (buffy_rx_loop zeroState 2 0)) ∧
    (buffy_tx_buffer_read_loop_fuel 3 zeroState 2 0 =
        some (buffy_tx_buffer_read_loop zeroState 2 0) ∧
      (buffy_tx_buffer_read_loop zeroState 2 0).isSome) :=
  ⟨loops_terminate_within_request_bound.1 3 zeroState [4, 5] 2 0 (by omega),
    loops_terminate_within_request_bound.2.1 3 zeroState 2 0 (by omega),
    loops_terminate_within_request_bound.2.2 3 zeroState 2 0 (by omega) (by decide)
      (by decide) (by decide) (by decide)⟩
